import Mathlib

/-!
# script.js: functions, timers and animation helpers

A shallow embedding of `src/script.js`.

* A number is an IEEE 754 double: a finite value, given as the rational it
  denotes, `Infinity`, `-Infinity` or `NaN`.  Every arithmetic operation
  computes the exact result and rounds it to the nearest double, ties to even.
  The two zeros are not told apart.
* The call stack and the number of arguments of a call are bounded by the
  engine; the bounds are parameters (`stack`, `argLimit`), and running out of
  either is the `RangeError` the engine throws.
* Arrays live in a heap and are passed by reference, so that "the argument is
  left unchanged" is a statement about the heap.  The elements are numbers.
* `setTimeout` / `clearTimeout` are modelled by an explicit timer queue.  Time
  is a natural number of milliseconds, a timer fires exactly when it is due,
  and timers that are due together fire in registration order.  A call made at
  time `t` from outside runs after the timers due at `t` or earlier.
* `Math.random`, trigonometry and inline style values are not modelled; they
  do not influence any timer or any node creation or removal.
-/

/-! ## Numbers -/

/-- A JavaScript number: a finite double, `Infinity`, `-Infinity` or `NaN`. -/
inductive JSNumber where
  | finite (q : ℚ)
  | posInfinity
  | negInfinity
  | nan
deriving DecidableEq

/-- Round a non-negative rational to the nearest integer, a tie to the even
one. -/
def roundHalfEven (x : ℚ) : Int :=
  let k := ⌊x⌋
  let f := x - k
  if f < 1 / 2 then k
  else if 1 / 2 < f then k + 1
  else if k % 2 = 0 then k else k + 1

/-- The double nearest to the rational `q` (binary64, round to nearest, ties
to even): 53 significant bits, least exponent `-1022` (below it the spacing
stays `2 ^ -1074`), and infinity from `2 ^ 1024` on. -/
def roundDouble (q : ℚ) : JSNumber :=
  if q = 0 then .finite 0
  else
    let a := |q|
    let ulp : ℚ := (2 : ℚ) ^ (max (Int.log 2 a) (-1022) - 52)
    let r : ℚ := (roundHalfEven (a / ulp) : ℚ) * ulp
    if (2 : ℚ) ^ (1024 : ℤ) ≤ r then (if 0 < q then .posInfinity else .negInfinity)
    else .finite (if 0 < q then r else -r)

/-- Unary minus. -/
def JSNumber.neg : JSNumber → JSNumber
  | .finite q => .finite (-q)
  | .posInfinity => .negInfinity
  | .negInfinity => .posInfinity
  | .nan => .nan

/-- The operator `+` on numbers. -/
def JSNumber.add : JSNumber → JSNumber → JSNumber
  | .finite a, .finite b => roundDouble (a + b)
  | .finite _, .posInfinity => .posInfinity
  | .finite _, .negInfinity => .negInfinity
  | .posInfinity, .finite _ => .posInfinity
  | .posInfinity, .posInfinity => .posInfinity
  | .posInfinity, .negInfinity => .nan
  | .negInfinity, .finite _ => .negInfinity
  | .negInfinity, .negInfinity => .negInfinity
  | .negInfinity, .posInfinity => .nan
  | .nan, _ => .nan
  | _, .nan => .nan

/-- The operator `-` on numbers. -/
def JSNumber.sub (a b : JSNumber) : JSNumber :=
  a.add b.neg

/-- The sign of an infinite product or quotient. -/
def signedInfinity (positive : Bool) : JSNumber :=
  if positive then .posInfinity else .negInfinity

/-- The operator `*` on numbers. -/
def JSNumber.mul : JSNumber → JSNumber → JSNumber
  | .finite a, .finite b => roundDouble (a * b)
  | .finite a, .posInfinity => if a = 0 then .nan else signedInfinity (decide (0 < a))
  | .finite a, .negInfinity => if a = 0 then .nan else signedInfinity (decide (a < 0))
  | .posInfinity, .finite b => if b = 0 then .nan else signedInfinity (decide (0 < b))
  | .negInfinity, .finite b => if b = 0 then .nan else signedInfinity (decide (b < 0))
  | .posInfinity, .posInfinity => .posInfinity
  | .posInfinity, .negInfinity => .negInfinity
  | .negInfinity, .posInfinity => .negInfinity
  | .negInfinity, .negInfinity => .posInfinity
  | .nan, _ => .nan
  | _, .nan => .nan

/-- The operator `/` on numbers; a zero divisor is the positive zero. -/
def JSNumber.div : JSNumber → JSNumber → JSNumber
  | .finite a, .finite b =>
    if b = 0 then (if a = 0 then .nan else signedInfinity (decide (0 < a)))
    else roundDouble (a / b)
  | .finite _, .posInfinity => .finite 0
  | .finite _, .negInfinity => .finite 0
  | .posInfinity, .finite b => signedInfinity (decide (0 ≤ b))
  | .negInfinity, .finite b => signedInfinity (decide (b < 0))
  | .posInfinity, .posInfinity => .nan
  | .posInfinity, .negInfinity => .nan
  | .negInfinity, .posInfinity => .nan
  | .negInfinity, .negInfinity => .nan
  | .nan, _ => .nan
  | _, .nan => .nan

/-- The comparison `a <= b`; it is false when either side is `NaN`. -/
def JSNumber.le : JSNumber → JSNumber → Bool
  | .finite a, .finite b => decide (a ≤ b)
  | .finite _, .posInfinity => true
  | .finite _, .negInfinity => false
  | .posInfinity, .finite _ => false
  | .posInfinity, .posInfinity => true
  | .posInfinity, .negInfinity => false
  | .negInfinity, .finite _ => true
  | .negInfinity, .posInfinity => true
  | .negInfinity, .negInfinity => true
  | .nan, _ => false
  | _, .nan => false

/-- `Math.max` of two numbers: `NaN` if either is. -/
def JSNumber.max : JSNumber → JSNumber → JSNumber
  | .nan, _ => .nan
  | _, .nan => .nan
  | a, b => if a.le b then b else a

/-- `Math.min` of two numbers: `NaN` if either is. -/
def JSNumber.min : JSNumber → JSNumber → JSNumber
  | .nan, _ => .nan
  | _, .nan => .nan
  | a, b => if a.le b then a else b

/-! ## Mathematical functions (script.js 27-57) -/

/-- `calculateFactorial` (script.js 50-57), on a call stack with room for
`stack` more frames.  `none` is the `RangeError` of an exhausted stack. -/
def calculateFactorial : Nat → JSNumber → Option JSNumber
  | 0, _ => none
  | stack + 1, n =>
    if n.le (.finite 1) then some (.finite 1)
    else (calculateFactorial stack (n.sub (.finite 1))).map (fun r => n.mul r)

/-- `processNumber` (script.js 28-47): a `switch` on the operation name.
`none` is the `RangeError` `calculateFactorial` may end in. -/
def processNumber (stack : Nat) (number : JSNumber) (operation : String) : Option JSNumber :=
  if operation = "square" then some (number.mul number)
  else if operation = "cube" then some ((number.mul number).mul number)
  else if operation = "factorial" then calculateFactorial stack number
  else some number

/-! ## Array processing (script.js 71-102) -/

/-- The JavaScript values `processArray` can be handed.  An array is a
reference into the heap. -/
inductive JSValue where
  | undefined
  | null
  | bool (b : Bool)
  | number (n : JSNumber)
  | string (s : String)
  | object
  | array (ref : Nat)
deriving DecidableEq

/-- The heap of arrays of numbers: reference `r` denotes `arrays[r]`. -/
structure Heap where
  arrays : List (List JSNumber)
deriving DecidableEq

/-- Allocate a new array, returning the heap and the fresh reference. -/
def Heap.alloc (h : Heap) (xs : List JSNumber) : Heap × Nat :=
  ({ arrays := h.arrays ++ [xs] }, h.arrays.length)

/-- The `result` field computed by `processArray`: a number, or, for an
unknown operation, the argument array itself. -/
inductive ArrayResult where
  | num (n : JSNumber)
  | sameArray (ref : Nat)
deriving DecidableEq

/-- The record returned by `processArray` on an array. -/
structure Processed where
  operation : String
  result : ArrayResult
  originalArray : Nat
  arrayLength : Nat
deriving DecidableEq

/-- How a call of `processArray` ends: with the error record, with the result
record, or with the `RangeError` of a spread call that has too many
arguments. -/
inductive ArrayOutput where
  | error (message : String)
  | ok (r : Processed)
  | rangeError
deriving DecidableEq

/-- `arr.reduce((acc, curr) => acc + curr, 0)`: the elements are added to `0`
from left to right. -/
def reduceSum (arr : List JSNumber) : JSNumber :=
  arr.foldl (fun acc curr => acc.add curr) (.finite 0)

/-- `Math.max(...arr)`: `-Infinity` without arguments; `none` is the
`RangeError` of a call with more than `argLimit` arguments. -/
def mathMax (argLimit : Nat) (arr : List JSNumber) : Option JSNumber :=
  if argLimit < arr.length then none else some (arr.foldl JSNumber.max .negInfinity)

/-- `Math.min(...arr)`: `Infinity` without arguments; `none` is the
`RangeError` of a call with more than `argLimit` arguments. -/
def mathMin (argLimit : Nat) (arr : List JSNumber) : Option JSNumber :=
  if argLimit < arr.length then none else some (arr.foldl JSNumber.min .posInfinity)

/-- The `switch` of `processArray` (script.js 79-94). -/
def arrayResult (argLimit ref : Nat) (arr : List JSNumber) (operation : String) :
    Option ArrayResult :=
  if operation = "sum" then some (.num (reduceSum arr))
  else if operation = "average" then
    some (.num ((reduceSum arr).div (.finite (arr.length : ℚ))))
  else if operation = "max" then (mathMax argLimit arr).map ArrayResult.num
  else if operation = "min" then (mathMin argLimit arr).map ArrayResult.num
  else some (.sameArray ref)

/-- `processArray` (script.js 72-102).  `operation = none` is an omitted
argument, which takes the default `'sum'`.  A reference that denotes no array
of the heap is not a value the function can receive; it is treated as a
non-array. -/
def processArray (argLimit : Nat) (h : Heap) (arr : JSValue) (operation : Option String) :
    Heap × ArrayOutput :=
  let operation := operation.getD "sum"
  match arr with
  | .array ref =>
    match h.arrays[ref]? with
    | some xs =>
      match arrayResult argLimit ref xs operation with
      | some result =>
        let (h1, copy) := h.alloc xs
        (h1, .ok { operation := operation, result := result, originalArray := copy,
                   arrayLength := xs.length })
      | none => (h, .rangeError)
    | none => (h, .error "Input must be an array")
  | _ => (h, .error "Input must be an array")

/-! ## The timer queue (`setTimeout`, `clearTimeout`) -/

/-- A pending timer: its handle, the time it is due and the callback. -/
structure Timer (τ : Type) where
  id : Nat
  due : Nat
  task : τ
deriving DecidableEq, Repr

/-- The page's event loop: the clock, the next timer handle, the pending
timers in registration order, and the program's own variables. -/
structure EventLoop (σ τ : Type) where
  now : Nat
  nextId : Nat
  timers : List (Timer τ)
  st : σ
deriving DecidableEq, Repr

/-- The timer that fires next: the earliest due, the first registered among
equals. -/
def nextTimer {τ : Type} : List (Timer τ) → Option (Timer τ)
  | [] => none
  | t :: ts =>
    match nextTimer ts with
    | none => some t
    | some u => if u.due < t.due then some u else some t

/-- `setTimeout(task, delay)`: registers a timer and returns its handle. -/
def EventLoop.setTimeout {σ τ : Type} (w : EventLoop σ τ) (task : τ) (delay : Nat) :
    EventLoop σ τ × Nat :=
  ({ w with nextId := w.nextId + 1,
            timers := w.timers ++ [{ id := w.nextId, due := w.now + delay, task := task }] },
   w.nextId)

/-- `clearTimeout(handle)`; `none` is `undefined`, for which nothing happens. -/
def EventLoop.clearTimeout {σ τ : Type} (w : EventLoop σ τ) (handle : Option Nat) :
    EventLoop σ τ :=
  match handle with
  | none => w
  | some h => { w with timers := w.timers.filter (fun t => t.id != h) }

/-- Whether a timer due at `due` may fire when the clock may run up to
`limit` (`none`: no limit). -/
def withinLimit (limit : Option Nat) (due : Nat) : Bool :=
  match limit with
  | none => true
  | some l => decide (due ≤ l)

/-- Fire the next timer if it is due within `limit`: the clock moves to its
due time, it leaves the queue, and its callback runs. -/
def fireNext {σ τ : Type} (fire : τ → EventLoop σ τ → EventLoop σ τ) (limit : Option Nat)
    (w : EventLoop σ τ) : Option (EventLoop σ τ) :=
  match nextTimer w.timers with
  | none => none
  | some t =>
    if withinLimit limit t.due then
      some (fire t.task { w with now := max w.now t.due,
                                 timers := w.timers.filter (fun u => u.id != t.id) })
    else none

/-- Fire timers, one after the other, until none is due within `limit`
(or the fuel is spent). -/
def runTimers {σ τ : Type} (fire : τ → EventLoop σ τ → EventLoop σ τ) :
    Nat → Option Nat → EventLoop σ τ → EventLoop σ τ
  | 0, _, w => w
  | fuel + 1, limit, w =>
    match fireNext fire limit w with
    | none => w
    | some w1 => runTimers fire fuel limit w1

/-- Let the clock reach `t`, firing on the way every timer due at `t` or
earlier. -/
def advanceTo {σ τ : Type} (fire : τ → EventLoop σ τ → EventLoop σ τ) (fuel t : Nat)
    (w : EventLoop σ τ) : EventLoop σ τ :=
  let w1 := runTimers fire fuel (some t) w
  { w1 with now := max w1.now t }

/-! ## debounce (script.js 485-496) -/

/-- The closure variables of `debounce`: the handle `timeout`, and the record
of the executions of `func` (time and arguments). -/
structure DebounceState (α : Type) where
  timeout : Option Nat
  executed : List (Nat × α)
deriving DecidableEq, Repr

/-- The callback `later` of one call, closed over that call's arguments. -/
inductive DebounceTask (α : Type) where
  | later (args : α)
deriving DecidableEq, Repr

/-- The body of `later`: `clearTimeout(timeout); func(...args)`. -/
def debounceFire {α : Type} :
    DebounceTask α → EventLoop (DebounceState α) (DebounceTask α) →
      EventLoop (DebounceState α) (DebounceTask α)
  | .later args, w =>
    let w1 := w.clearTimeout w.st.timeout
    { w1 with st := { w1.st with executed := w1.st.executed ++ [(w1.now, args)] } }

/-- `executedFunction(...args)`, the function `debounce(func, wait)` returns:
`clearTimeout(timeout); timeout = setTimeout(later, wait)`. -/
def executedFunction {α : Type} (wait : Nat) (args : α)
    (w : EventLoop (DebounceState α) (DebounceTask α)) :
    EventLoop (DebounceState α) (DebounceTask α) :=
  let w1 := w.clearTimeout w.st.timeout
  let (w2, handle) := w1.setTimeout (.later args) wait
  { w2 with st := { w2.st with timeout := some handle } }

/-- The page right after `debounce(func, wait)` has returned: `timeout` is
still `undefined` and no timer is pending. -/
def debounce (α : Type) : EventLoop (DebounceState α) (DebounceTask α) :=
  { now := 0, nextId := 1, timers := [], st := { timeout := none, executed := [] } }

/-- A call of the debounced function `gap` milliseconds after the previous
event. -/
def debounceCall {α : Type} (wait fuel : Nat)
    (w : EventLoop (DebounceState α) (DebounceTask α)) (call : Nat × α) :
    EventLoop (DebounceState α) (DebounceTask α) :=
  executedFunction wait call.2 (advanceTo debounceFire fuel (w.now + call.1) w)

/-- A sequence of calls, each given with its distance in time from the one
before, followed by as much time as the pending timers need. -/
def debounceRun {α : Type} (wait fuel : Nat) (calls : List (Nat × α)) :
    EventLoop (DebounceState α) (DebounceTask α) :=
  runTimers debounceFire fuel none (calls.foldl (debounceCall wait fuel) (debounce α))

/-! ## throttle (script.js 498-510) -/

/-- The closure variable `inThrottle` (`undefined` is `false`), and the
record of the executions of `func`. -/
structure ThrottleState (α : Type) where
  inThrottle : Bool
  executed : List (Nat × α)
deriving DecidableEq, Repr

/-- The only callback `throttle` registers: `() => inThrottle = false`. -/
inductive ThrottleTask where
  | reset
deriving DecidableEq, Repr

/-- The body of the callback. -/
def throttleFire {α : Type} :
    ThrottleTask → EventLoop (ThrottleState α) ThrottleTask →
      EventLoop (ThrottleState α) ThrottleTask
  | .reset, w => { w with st := { w.st with inThrottle := false } }

/-- The function `throttle(func, limit)` returns. -/
def throttled {α : Type} (limit : Nat) (args : α)
    (w : EventLoop (ThrottleState α) ThrottleTask) : EventLoop (ThrottleState α) ThrottleTask :=
  if !w.st.inThrottle then
    let w1 := { w with st := { w.st with executed := w.st.executed ++ [(w.now, args)] } }
    let w2 := { w1 with st := { w1.st with inThrottle := true } }
    (w2.setTimeout .reset limit).1
  else w

/-- The page right after `throttle(func, limit)` has returned. -/
def throttle (α : Type) : EventLoop (ThrottleState α) ThrottleTask :=
  { now := 0, nextId := 1, timers := [], st := { inThrottle := false, executed := [] } }

/-- A call of the throttled function `gap` milliseconds after the previous
event. -/
def throttleCall {α : Type} (limit fuel : Nat)
    (w : EventLoop (ThrottleState α) ThrottleTask) (call : Nat × α) :
    EventLoop (ThrottleState α) ThrottleTask :=
  throttled limit call.2 (advanceTo throttleFire fuel (w.now + call.1) w)

/-- A sequence of calls, each given with its distance in time from the one
before. -/
def throttleRun {α : Type} (limit fuel : Nat) (calls : List (Nat × α)) :
    EventLoop (ThrottleState α) ThrottleTask :=
  calls.foldl (throttleCall limit fuel) (throttle α)

/-! ## Class attributes (`className`, `classList`) -/

/-- ASCII whitespace (tab, line feed, form feed, carriage return, space): the
separators of the tokens of a class attribute. -/
def isAsciiWhitespace (c : Char) : Bool :=
  c.toNat == 9 || c.toNat == 10 || c.toNat == 12 || c.toNat == 13 || c.toNat == 32

/-- Whether `classList.add` and `classList.remove` accept the string: it is
not empty and holds no ASCII whitespace. -/
def validToken (s : String) : Bool :=
  !s.toList.isEmpty && s.toList.all (fun c => !isAsciiWhitespace c)

/-- A class name as the animation helpers are handed it: a string that
`classList` accepts as a token. -/
structure ClassToken where
  name : String
  valid : validToken name = true
deriving DecidableEq

/-- Split on ASCII whitespace; `cur` is the token being read, reversed. -/
def splitTokens : List Char → List Char → List (List Char)
  | [], cur => if cur.isEmpty then [] else [cur.reverse]
  | c :: cs, cur =>
    if isAsciiWhitespace c then
      if cur.isEmpty then splitTokens cs [] else cur.reverse :: splitTokens cs []
    else splitTokens cs (c :: cur)

/-- Keep the first occurrence of every element. -/
def orderedSet (xs : List (List Char)) : List (List Char) :=
  xs.foldl (fun acc x => if acc.contains x then acc else acc ++ [x]) []

/-- The token set of a class attribute. -/
def tokenSet (className : String) : List String :=
  (orderedSet (splitTokens className.toList [])).map String.mk

/-- The attribute value of a token set: the tokens joined by one space. -/
def serializeTokens (tokens : List String) : String :=
  String.intercalate " " tokens

/-- `element.classList.add(token)`, as the new value of `className`. -/
def classListAdd (className : String) (token : ClassToken) : String :=
  let tokens := tokenSet className
  serializeTokens (if tokens.contains token.name then tokens else tokens ++ [token.name])

/-- `element.classList.remove(token)`, as the new value of `className`. -/
def classListRemove (className : String) (token : ClassToken) : String :=
  serializeTokens ((tokenSet className).filter (fun t => t != token.name))

/-- A word character of a regular expression: `[A-Za-z0-9_]`. -/
def isWordChar (c : Char) : Bool :=
  c.isAlphanum || c.toNat == 95

/-- The alternatives of `/\b(bounce|spin|shake|glow)\b/g`, in order. -/
def animationWords : List (List Char) :=
  ["bounce".toList, "spin".toList, "shake".toList, "glow".toList]

/-- Whether `word` stands at the head of `s` with a word boundary after it. -/
def matchesWord (word s : List Char) : Bool :=
  word.isPrefixOf s &&
    (match s.drop word.length with
     | [] => true
     | c :: _ => !isWordChar c)

/-- One left-to-right pass of the replacement: `prev` is the character before
the current position, `skip` the number of characters of a match still to be
dropped. -/
def stripWords : Option Char → Nat → List Char → List Char
  | _, _, [] => []
  | _, skip + 1, c :: cs => stripWords (some c) skip cs
  | prev, 0, c :: cs =>
    let boundary :=
      match prev with
      | none => true
      | some p => !isWordChar p
    match (if boundary then animationWords.find? (fun word => matchesWord word (c :: cs))
           else none) with
    | some word => stripWords (some c) (word.length - 1) cs
    | none => c :: stripWords (some c) 0 cs

/-- `className.replace(/\b(bounce|spin|shake|glow)\b/g, '')`. -/
def removeAnimationClasses (className : String) : String :=
  String.mk (stripWords none 0 className.toList)

/-! ## chainAnimations (script.js 380-402) -/

/-- One execution of the body of `runNextAnimation`: when it ran, the
position of the list it read, and the animation found there. -/
structure StepRecord where
  time : Nat
  index : Nat
  animation : Option ClassToken
deriving DecidableEq

/-- The variables of one chain: the cursor `currentIndex`, the class
attribute of `element`, and the record of the executed steps. -/
structure ChainState where
  currentIndex : Nat
  className : String
  applied : List StepRecord
deriving DecidableEq

/-- The only callback the chain registers. -/
inductive ChainTask where
  | runNextAnimation
deriving DecidableEq, Repr

/-- The visual change of one step (script.js 388-394): the animation classes
are taken off the class attribute, then the class of the step is added, unless
the entry is falsy (`none`). -/
def applyAnimation (className : String) (animation : Option ClassToken) : String :=
  let cleared := removeAnimationClasses className
  match animation with
  | some a => classListAdd cleared a
  | none => cleared

/-- `runNextAnimation` (script.js 384-399).  An entry of `animations` is a
class name or a falsy value (`none`), which the guard `if (animation)`
skips; reading past the end of the list would give `undefined`. -/
def runNextAnimation (animations : List (Option ClassToken)) (interval : Nat)
    (w : EventLoop ChainState ChainTask) : EventLoop ChainState ChainTask :=
  if w.st.currentIndex < animations.length then
    let animation := (animations[w.st.currentIndex]?).join
    let className := applyAnimation w.st.className animation
    let step : StepRecord :=
      { time := w.now, index := w.st.currentIndex, animation := animation }
    let w1 := { w with st := { w.st with currentIndex := w.st.currentIndex + 1,
                                         className := className,
                                         applied := w.st.applied ++ [step] } }
    (w1.setTimeout .runNextAnimation interval).1
  else w

/-- The callback of the chain's timers. -/
def chainFire (animations : List (Option ClassToken)) (interval : Nat) :
    ChainTask → EventLoop ChainState ChainTask → EventLoop ChainState ChainTask
  | .runNextAnimation, w => runNextAnimation animations interval w

/-- The page when `chainAnimations` is entered, after `let currentIndex = 0`. -/
def chainStart (element : String) : EventLoop ChainState ChainTask :=
  { now := 0, nextId := 1, timers := [],
    st := { currentIndex := 0, className := element, applied := [] } }

/-- `chainAnimations(element, animations, interval)`: the page when the call
returns.  `element` is the class attribute of the element; an omitted
`interval` is `1000`. -/
def chainAnimations (element : String) (animations : List (Option ClassToken))
    (interval : Option Nat) : EventLoop ChainState ChainTask :=
  runNextAnimation animations (interval.getD 1000) (chainStart element)

/-- The chain left to run: the pending timers fire until none is left. -/
def chainRun (fuel : Nat) (element : String) (animations : List (Option ClassToken))
    (interval : Option Nat) : EventLoop ChainState ChainTask :=
  runTimers (chainFire animations (interval.getD 1000)) fuel none
    (chainAnimations element animations interval)

/-- The states of a chain between two tasks: the one `chainAnimations`
returns in, and every state a timer leaves behind.  Firing a due timer is the
only transition: the program holds no handle to cancel one with. -/
inductive ChainReachable (element : String) (animations : List (Option ClassToken))
    (interval : Option Nat) : EventLoop ChainState ChainTask → Prop where
  | start : ChainReachable element animations interval
      (chainAnimations element animations interval)
  | fire (w w1 : EventLoop ChainState ChainTask) :
      ChainReachable element animations interval w →
      fireNext (chainFire animations (interval.getD 1000)) none w = some w1 →
      ChainReachable element animations interval w1

/-! ## createParticleEffect (script.js 517-562) -/

/-- A node of the document: its identity, its tag, the loop index `i` its
animation name `particle-i` is built from, and the position it was made for. -/
structure Node where
  id : Nat
  tag : String
  index : Nat
  origin : Int × Int
deriving DecidableEq, Repr

/-- The document: the children of `document.head` and of `document.body`,
the identity of the next node created, and the record of the clean-up
callbacks that ran (time, particle, style sheet). -/
structure PageState where
  nextNode : Nat
  head : List Node
  body : List Node
  cleaned : List (Nat × Node × Node)
deriving DecidableEq, Repr

/-- The clean-up callback of one particle, closed over its two nodes. -/
inductive ParticleTask where
  | cleanup (particle styleSheet : Node)
deriving DecidableEq, Repr

/-- `node.remove()`: the node leaves its parent, if it has one. -/
def removeNode (n : Node) (p : PageState) : PageState :=
  { p with head := p.head.filter (fun m => m.id != n.id),
           body := p.body.filter (fun m => m.id != n.id) }

/-- The body of the clean-up callback: `particle.remove(); styleSheet.remove()`. -/
def particleFire :
    ParticleTask → EventLoop PageState ParticleTask → EventLoop PageState ParticleTask
  | .cleanup particle styleSheet, w =>
    let p1 := removeNode particle w.st
    let p2 := removeNode styleSheet p1
    { w with st := { p2 with cleaned := p2.cleaned ++ [(w.now, particle, styleSheet)] } }

/-- One iteration of the loop of `createParticleEffect`, for the index `i`. -/
def particleStep (x y : Int) (w : EventLoop PageState ParticleTask) (i : Nat) :
    EventLoop PageState ParticleTask :=
  let particle : Node := { id := w.st.nextNode, tag := "div", index := i, origin := (x, y) }
  let styleSheet : Node :=
    { id := w.st.nextNode + 1, tag := "style", index := i, origin := (x, y) }
  let w1 := { w with st := { w.st with nextNode := w.st.nextNode + 2,
                                       head := w.st.head ++ [styleSheet],
                                       body := w.st.body ++ [particle] } }
  (w1.setTimeout (.cleanup particle styleSheet) 1000).1

/-- `createParticleEffect(x, y, count)`; an omitted `count` is `5`. -/
def createParticleEffect (x y : Int) (count : Option Nat)
    (w : EventLoop PageState ParticleTask) : EventLoop PageState ParticleTask :=
  (List.range (count.getD 5)).foldl (particleStep x y) w

/-! ## animateBox (script.js 221-245) -/

/-- The constant `ANIMATION_DURATION` (script.js 7). -/
def ANIMATION_DURATION : Nat := 1000

/-- The animation box: its class attribute and its text. -/
structure BoxState where
  className : String
  textContent : String
deriving DecidableEq, Repr

/-- The two callbacks `animateBox` registers, closed over `animationType` and
over `originalText`. -/
inductive BoxTask where
  | removeClass (animationType : ClassToken)
  | restoreText (originalText : String)
deriving DecidableEq

/-- The bodies of the two callbacks. -/
def boxFire : BoxTask → EventLoop BoxState BoxTask → EventLoop BoxState BoxTask
  | .removeClass animationType, w =>
    { w with st := { w.st with className := classListRemove w.st.className animationType } }
  | .restoreText originalText, w =>
    { w with st := { w.st with textContent := originalText } }

/-- `toUpperCase()`: the ASCII letters are mapped to upper case.  Other
characters are left as they are, where JavaScript maps every letter that has
an upper case. -/
def toUpperCase (s : String) : String :=
  String.mk (s.toList.map Char.toUpper)

/-- `animateBox(animationType)` (script.js 221-245). -/
def animateBox (animationType : ClassToken) (w : EventLoop BoxState BoxTask) :
    EventLoop BoxState BoxTask :=
  let w1 := { w with st := { w.st with className := "animation-box" } }
  let w2 := { w1 with st := { w1.st with
                className := classListAdd w1.st.className animationType } }
  let w3 := (w2.setTimeout (.removeClass animationType) ANIMATION_DURATION).1
  let originalText := w3.st.textContent
  let w4 := { w3 with st := { w3.st with
                textContent := toUpperCase animationType.name ++ "!" } }
  (w4.setTimeout (.restoreText originalText) ANIMATION_DURATION).1

/-- The page with the animation box showing `text`, no animation running. -/
def boxPage (text : String) : EventLoop BoxState BoxTask :=
  { now := 0, nextId := 1, timers := [],
    st := { className := "animation-box", textContent := text } }

/-- A call of `animateBox` `gap` milliseconds after the previous event. -/
def animateBoxCall (fuel : Nat) (w : EventLoop BoxState BoxTask) (call : Nat × ClassToken) :
    EventLoop BoxState BoxTask :=
  animateBox call.2 (advanceTo boxFire fuel (w.now + call.1) w)

/-- A sequence of calls of `animateBox` on the box showing `text`, followed
by as much time as the pending timers need. -/
def animateBoxRun (fuel : Nat) (text : String) (calls : List (Nat × ClassToken)) :
    EventLoop BoxState BoxTask :=
  runTimers boxFire fuel none (calls.foldl (animateBoxCall fuel) (boxPage text))

/-! ## Invariants used in the proofs -/

/-- After a call with arguments `a`, and before its timer fires: the only
pending timer is that call's `later`, due `wait` after the call, `timeout`
holds its handle, and `func` has not run. -/
def DebouncePending {α : Type} (wait : Nat) (a : α)
    (w : EventLoop (DebounceState α) (DebounceTask α)) : Prop :=
  ∃ id, w.timers = [{ id := id, due := w.now + wait, task := .later a }] ∧
    w.st.timeout = some id ∧ w.st.executed = []

/-- The state of a throttle between two calls: the executions recorded so far
are pairwise at least `limit` apart and none lies in the future; and either
the window is closed (no timer, every execution at least `limit` ago), or it
is open: the flag is set and the one pending timer resets it `limit` after the
latest execution `e`. -/
def ThrottleInv {α : Type} (limit : Nat) (w : EventLoop (ThrottleState α) ThrottleTask) :
    Prop :=
  w.st.executed.Pairwise (fun x y => x.1 + limit ≤ y.1) ∧
  (∀ x ∈ w.st.executed, x.1 ≤ w.now) ∧
  ((w.st.inThrottle = false ∧ w.timers = [] ∧ ∀ x ∈ w.st.executed, x.1 + limit ≤ w.now) ∨
   (w.st.inThrottle = true ∧
     ∃ id e, w.timers = [{ id := id, due := e + limit, task := .reset }] ∧
       (∀ x ∈ w.st.executed, x.1 ≤ e) ∧ w.now < e + limit))

/-- The bound of the specification, `ceil(D / L)`, on natural numbers. -/
def ceilDiv (d l : Nat) : Nat := (d + l - 1) / l

/-- The steps a chain has executed once its cursor is `j`: step `i` at time
`i * interval`, for every `i < j`. -/
def chainRecords (animations : List (Option ClassToken)) (interval j : Nat) :
    List StepRecord :=
  (List.range j).map
    (fun i => { time := i * interval, index := i, animation := (animations[i]?).join })

/-- A chain with `j` steps executed (`1 ≤ j`) whose next timer is pending. -/
def ChainMid (element : String) (animations : List (Option ClassToken)) (interval j : Nat)
    (w : EventLoop ChainState ChainTask) : Prop :=
  1 ≤ j ∧ j ≤ animations.length ∧ w.st.currentIndex = j ∧
    w.st.applied = chainRecords animations interval j ∧
    w.now = (j - 1) * interval ∧
    w.st.className = (animations.take j).foldl applyAnimation element ∧
    ∃ id, w.timers = [{ id := id, due := j * interval, task := .runNextAnimation }]

/-- A chain that has finished: every step executed, no timer pending. -/
def ChainDone (element : String) (animations : List (Option ClassToken)) (interval : Nat)
    (w : EventLoop ChainState ChainTask) : Prop :=
  w.st.currentIndex = animations.length ∧
    w.st.applied = chainRecords animations interval animations.length ∧
    w.now = animations.length * interval ∧ w.timers = [] ∧
    w.st.className = animations.foldl applyAnimation element

/-- The class name `bounce`. -/
def bounce : ClassToken := { name := "bounce", valid := by decide }

/-- The class name `spin`. -/
def spin : ClassToken := { name := "spin", valid := by decide }

/-- One particle of a call of `createParticleEffect`: the handle of its
clean-up timer and its two nodes. -/
structure CleanupJob where
  tid : Nat
  particle : Node
  styleSheet : Node
deriving DecidableEq, Repr

/-- The clean-up timer of a job, due at `due`. -/
def jobTimer (due : Nat) (j : CleanupJob) : Timer ParticleTask :=
  { id := j.tid, due := due, task := .cleanup j.particle j.styleSheet }

/-- The `i`-th particle `createParticleEffect(x, y, count)` makes when it is
called in the state `w`. -/
def particleJob (w : EventLoop PageState ParticleTask) (x y : Int) (i : Nat) : CleanupJob :=
  { tid := w.nextId + i,
    particle := { id := w.st.nextNode + 2 * i, tag := "div", index := i, origin := (x, y) },
    styleSheet :=
      { id := w.st.nextNode + 2 * i + 1, tag := "style", index := i, origin := (x, y) } }

/-- The two nodes a clean-up callback removes: the particle and its style
sheet. -/
def taskNodes : ParticleTask → Node × Node
  | .cleanup particle styleSheet => (particle, styleSheet)

/-- Whether the timer is due when the clock reaches `limit`. -/
def timerDue (limit : Nat) (t : Timer ParticleTask) : Bool :=
  decide (t.due ≤ limit)

/-- Whether the clean-up of the timer leaves the node `m` in place. -/
def spares (t : Timer ParticleTask) (m : Node) : Bool :=
  m.id != (taskNodes t.task).1.id && m.id != (taskNodes t.task).2.id

/-- Whether the node `m` is left in place by every timer of `ts` that is due
when the clock reaches `limit`. -/
def survives (limit : Nat) (ts : List (Timer ParticleTask)) (m : Node) : Bool :=
  ts.all (fun t => !timerDue limit t || spares t m)

/-- The states of a page on which particle effects are spawned: the page as
loaded (any nodes, no timer), and from there every state reached by a call of
`createParticleEffect`, by a timer that fires, or by time passing. -/
inductive PageReachable : EventLoop PageState ParticleTask → Prop where
  | load (now nextId nextNode : Nat) (head body : List Node)
      (h : ∀ m ∈ body ++ head, m.id < nextNode) :
      PageReachable { now := now, nextId := nextId, timers := [],
                      st := { nextNode := nextNode, head := head, body := body,
                              cleaned := [] } }
  | spawn (w : EventLoop PageState ParticleTask) (x y : Int) (count : Option Nat) :
      PageReachable w → PageReachable (createParticleEffect x y count w)
  | fire (w w1 : EventLoop PageState ParticleTask) (limit : Option Nat) :
      PageReachable w → fireNext particleFire limit w = some w1 → PageReachable w1
  | wait (w : EventLoop PageState ParticleTask) (t : Nat) :
      PageReachable w → PageReachable { w with now := max w.now t }

/-- What holds in every reachable page: the identities of the nodes in the
document, of the nodes the pending timers and the clean-up record refer to,
and of the pending timers are below the next ones handed out, and no two
pending timers share a handle. -/
def PageOk (w : EventLoop PageState ParticleTask) : Prop :=
  (∀ m ∈ w.st.body ++ w.st.head, m.id < w.st.nextNode) ∧
  (∀ t ∈ w.timers, t.id < w.nextId) ∧
  (w.timers.map Timer.id).Nodup ∧
  (∀ t ∈ w.timers, (taskNodes t.task).1.id < w.st.nextNode ∧
    (taskNodes t.task).2.id < w.st.nextNode) ∧
  (∀ c ∈ w.st.cleaned, c.2.1.id < w.st.nextNode ∧ c.2.2.id < w.st.nextNode)

/-- A page with an empty head and body and no timer pending. -/
def emptyPage : EventLoop PageState ParticleTask :=
  { now := 0, nextId := 1, timers := [],
    st := { nextNode := 0, head := [], body := [], cleaned := [] } }

/-- A page on which two particles, made at time 0, are still waiting for their
clean-up at time 500. -/
def busyPage : EventLoop PageState ParticleTask :=
  { createParticleEffect 1 2 (some 2) emptyPage with
    now := max (createParticleEffect 1 2 (some 2) emptyPage).now 500 }

/-! ## Theorems: rounding to a double -/

lemma int_log_two_eq (a : ℚ) (e : ℤ) (ha : 0 < a) (h1 : (2 : ℚ) ^ e ≤ a)
    (h2 : a < (2 : ℚ) ^ (e + 1)) : Int.log 2 a = e := by
  have hb : 1 < (2 : ℕ) := by norm_num
  have l1 : e ≤ Int.log 2 a := by
    rw [← Int.zpow_le_iff_le_log hb ha]
    exact_mod_cast h1
  have l2 : Int.log 2 a < e + 1 := by
    rw [← Int.lt_zpow_iff_log_lt hb ha]
    exact_mod_cast h2
  omega

lemma roundHalfEven_intCast (k : ℤ) : roundHalfEven (k : ℚ) = k := by
  simp [roundHalfEven]

lemma roundHalfEven_down (x : ℚ) (k : ℤ) (h1 : (k : ℚ) ≤ x) (h2 : x - k < 1 / 2) :
    roundHalfEven x = k := by
  have hf : ⌊x⌋ = k := by
    rw [Int.floor_eq_iff]
    constructor
    · exact h1
    · linarith
  simp only [roundHalfEven, hf]
  rw [if_pos h2]

lemma roundHalfEven_up (x : ℚ) (k : ℤ) (h1 : 1 / 2 < x - k) (h2 : x < k + 1) :
    roundHalfEven x = k + 1 := by
  have hf : ⌊x⌋ = k := by
    rw [Int.floor_eq_iff]
    constructor
    · linarith
    · exact h2
  simp only [roundHalfEven, hf]
  rw [if_neg (by linarith), if_pos h1]

lemma roundHalfEven_tie_even (x : ℚ) (k : ℤ) (h1 : x - k = 1 / 2) (h2 : k % 2 = 0) :
    roundHalfEven x = k := by
  have hf : ⌊x⌋ = k := by
    rw [Int.floor_eq_iff]
    constructor <;> linarith
  simp only [roundHalfEven, hf]
  rw [if_neg (by linarith), if_neg (by linarith), if_pos h2]

lemma roundDouble_eval (q : ℚ) (e k : ℤ) (hq : 0 < q) (h1 : (2 : ℚ) ^ e ≤ q)
    (h2 : q < (2 : ℚ) ^ (e + 1))
    (hk : roundHalfEven (q / (2 : ℚ) ^ (max e (-1022) - 52)) = k)
    (hfin : (k : ℚ) * (2 : ℚ) ^ (max e (-1022) - 52) < (2 : ℚ) ^ (1024 : ℤ)) :
    roundDouble q = .finite ((k : ℚ) * (2 : ℚ) ^ (max e (-1022) - 52)) := by
  have habs : |q| = q := abs_of_pos hq
  have hlog := int_log_two_eq q e hq h1 h2
  simp only [roundDouble, if_neg (ne_of_gt hq), habs, hlog, hk, if_neg (not_le.mpr hfin),
    if_pos hq]

lemma roundDouble_neg_eval (q r : ℚ) (hq : 0 < q) (h : roundDouble q = .finite r) :
    roundDouble (-q) = .finite (-r) := by
  have hne : q ≠ 0 := ne_of_gt hq
  have hneg : ¬ (0 < -q) := by linarith
  simp only [roundDouble, if_neg hne, abs_of_pos hq, if_pos hq] at h
  simp only [roundDouble, neg_eq_zero, if_neg hne, abs_neg, abs_of_pos hq, if_neg hneg]
  split at h
  · cases h
  · rename_i hfin
    rw [if_neg hfin]
    cases h
    rfl

/-- A value with at most 53 significant bits, within the exponent range, is
a double: rounding leaves it as it is. -/
lemma roundDouble_representable (m : ℕ) (j : ℤ) (hm : 0 < m) (hm53 : m < 2 ^ 53)
    (hj : -1074 ≤ j) (hfin : (m : ℚ) * (2 : ℚ) ^ j < (2 : ℚ) ^ (1024 : ℤ)) :
    roundDouble ((m : ℚ) * (2 : ℚ) ^ j) = .finite ((m : ℚ) * (2 : ℚ) ^ j) := by
  have h2pos : ∀ z : ℤ, (0 : ℚ) < (2 : ℚ) ^ z := fun z => zpow_pos (by norm_num) z
  have hq : (0 : ℚ) < (m : ℚ) * (2 : ℚ) ^ j := mul_pos (by exact_mod_cast hm) (h2pos j)
  have hb : 1 < (2 : ℕ) := by norm_num
  set e := Int.log 2 ((m : ℚ) * (2 : ℚ) ^ j) with he
  have he1 : ((2 : ℕ) : ℚ) ^ e ≤ (m : ℚ) * (2 : ℚ) ^ j := Int.zpow_log_le_self hb hq
  have he2 : (m : ℚ) * (2 : ℚ) ^ j < ((2 : ℕ) : ℚ) ^ (e + 1) :=
    Int.lt_zpow_succ_log_self hb _
  have hele : e < 53 + j := by
    rw [he, ← Int.lt_zpow_iff_log_lt hb hq]
    have : (m : ℚ) < (2 : ℚ) ^ (53 : ℤ) := by
      have h53 : (2 : ℚ) ^ (53 : ℤ) = ((2 ^ 53 : ℕ) : ℚ) := by norm_num
      rw [h53]
      exact_mod_cast hm53
    calc (m : ℚ) * (2 : ℚ) ^ j < (2 : ℚ) ^ (53 : ℤ) * (2 : ℚ) ^ j :=
          mul_lt_mul_of_pos_right this (h2pos j)
      _ = ((2 : ℕ) : ℚ) ^ (53 + j) := by
          rw [← zpow_add₀ (by norm_num : (2 : ℚ) ≠ 0)]; norm_num
  -- the exponent of the unit in the last place is at most `j`
  set s := max e (-1022) - 52 with hs
  have hsj : s ≤ j := by
    rw [hs]
    rcases max_cases e (-1022) with ⟨h, _⟩ | ⟨h, _⟩ <;> rw [h] <;> omega
  obtain ⟨t, ht⟩ : ∃ t : ℕ, j = s + t := ⟨(j - s).toNat, by omega⟩
  have hx : (m : ℚ) * (2 : ℚ) ^ j / (2 : ℚ) ^ s = (((m * 2 ^ t : ℕ) : ℤ) : ℚ) := by
    rw [ht, zpow_add₀ (by norm_num : (2 : ℚ) ≠ 0)]
    field_simp
    ring
  have hk : roundHalfEven ((m : ℚ) * (2 : ℚ) ^ j / (2 : ℚ) ^ s) = ((m * 2 ^ t : ℕ) : ℤ) := by
    rw [hx, roundHalfEven_intCast]
  have hback : (((m * 2 ^ t : ℕ) : ℤ) : ℚ) * (2 : ℚ) ^ s = (m : ℚ) * (2 : ℚ) ^ j := by
    rw [← hx]
    field_simp
  have habs : |(m : ℚ) * (2 : ℚ) ^ j| = (m : ℚ) * (2 : ℚ) ^ j := abs_of_pos hq
  simp only [roundDouble, if_neg (ne_of_gt hq), habs, ← he, ← hs, hk, hback,
    if_neg (not_le.mpr hfin), if_pos hq]

lemma roundDouble_natCast (n : ℕ) (h : n ≤ 2 ^ 53) : roundDouble (n : ℚ) = .finite n := by
  rcases Nat.eq_zero_or_pos n with h0 | hpos
  · subst h0; simp [roundDouble]
  · rcases Nat.lt_or_ge n (2 ^ 53) with hlt | hge
    · have := roundDouble_representable n 0 hpos hlt (by norm_num) (by
        have : (n : ℚ) < ((2 ^ 53 : ℕ) : ℚ) := by exact_mod_cast hlt
        have h2 : (((2 ^ 53 : ℕ) : ℚ)) < (2 : ℚ) ^ (1024 : ℤ) := by norm_num
        simpa using lt_trans this h2)
      simpa using this
    · have hn : n = 2 ^ 53 := le_antisymm h hge
      subst hn
      have := roundDouble_representable 1 53 (by norm_num) (by norm_num) (by norm_num)
        (by norm_num)
      norm_num at this ⊢
      exact this

lemma roundDouble_intCast (z : ℤ) (h : |z| ≤ 2 ^ 53) : roundDouble (z : ℚ) = .finite z := by
  rcases le_or_lt 0 z with hz | hz
  · obtain ⟨n, rfl⟩ := Int.eq_ofNat_of_zero_le hz
    have hn : n ≤ 2 ^ 53 := by
      rw [abs_of_nonneg hz] at h
      exact_mod_cast h
    simpa using roundDouble_natCast n hn
  · obtain ⟨n, hn⟩ : ∃ n : ℕ, z = -(n : ℤ) := ⟨z.natAbs, by omega⟩
    subst hn
    have hn0 : 0 < n := by omega
    have hn : n ≤ 2 ^ 53 := by
      rw [abs_neg, abs_of_nonneg (by positivity)] at h
      exact_mod_cast h
    have := roundDouble_neg_eval (n : ℚ) n (by exact_mod_cast hn0) (roundDouble_natCast n hn)
    simpa using this

lemma roundDouble_factorial (n : ℕ) (hn : n ≤ 22) :
    roundDouble ((n.factorial : ℕ) : ℚ) = .finite ((n.factorial : ℕ) : ℚ) := by
  rcases Nat.lt_or_ge n 19 with h | h
  · apply roundDouble_natCast
    have : n.factorial ≤ (18).factorial := Nat.factorial_le (by omega)
    exact le_trans this (by decide)
  · interval_cases n
    · have := roundDouble_representable 1856156927625 16 (by norm_num) (by norm_num)
        (by norm_num) (by norm_num)
      have e : (((19 : ℕ).factorial : ℕ) : ℚ) = ((1856156927625 : ℕ) : ℚ) * (2 : ℚ) ^ (16 : ℤ) := by
        norm_num [Nat.factorial]
      rw [e]; exact this
    · have := roundDouble_representable 9280784638125 18 (by norm_num) (by norm_num)
        (by norm_num) (by norm_num)
      have e : (((20 : ℕ).factorial : ℕ) : ℚ) = ((9280784638125 : ℕ) : ℚ) * (2 : ℚ) ^ (18 : ℤ) := by
        norm_num [Nat.factorial]
      rw [e]; exact this
    · have := roundDouble_representable 194896477400625 18 (by norm_num) (by norm_num)
        (by norm_num) (by norm_num)
      have e : (((21 : ℕ).factorial : ℕ) : ℚ) =
          ((194896477400625 : ℕ) : ℚ) * (2 : ℚ) ^ (18 : ℤ) := by
        norm_num [Nat.factorial]
      rw [e]; exact this
    · have := roundDouble_representable 2143861251406875 19 (by norm_num) (by norm_num)
        (by norm_num) (by norm_num)
      have e : (((22 : ℕ).factorial : ℕ) : ℚ) =
          ((2143861251406875 : ℕ) : ℚ) * (2 : ℚ) ^ (19 : ℤ) := by
        norm_num [Nat.factorial]
      rw [e]; exact this

/-! ## Theorems: mathematical functions -/

lemma sub_one_natCast (k : ℕ) (hk : k ≤ 2 ^ 53) :
    (JSNumber.finite ((k + 1 : ℕ) : ℚ)).sub (.finite 1) = .finite (k : ℚ) := by
  have : ((k + 1 : ℕ) : ℚ) + -1 = (k : ℚ) := by push_cast; ring
  simp only [JSNumber.sub, JSNumber.neg, JSNumber.add, this]
  exact roundDouble_natCast k hk

lemma le_one_natCast (k : ℕ) :
    (JSNumber.finite ((k + 2 : ℕ) : ℚ)).le (.finite 1) = false := by
  simp only [JSNumber.le, decide_eq_false_iff_not, not_le]
  have : (0 : ℚ) ≤ (k : ℚ) := Nat.cast_nonneg k
  push_cast
  linarith

lemma calculateFactorial_succ (stack : ℕ) (n : JSNumber) :
    calculateFactorial (stack + 1) n =
      if n.le (.finite 1) then some (.finite 1)
      else (calculateFactorial stack (n.sub (.finite 1))).map (fun r => n.mul r) := rfl

lemma calculateFactorial_exact (k : ℕ) :
    k ≤ 21 → ∀ stack, k + 1 ≤ stack →
      calculateFactorial stack (.finite ((k + 1 : ℕ) : ℚ)) =
        some (.finite (((k + 1).factorial : ℕ) : ℚ)) := by
  induction k with
  | zero =>
    intro _ stack hs
    obtain ⟨s, rfl⟩ : ∃ s, stack = s + 1 := ⟨stack - 1, by omega⟩
    simp [calculateFactorial, JSNumber.le]
  | succ k ih =>
    intro hk stack hs
    obtain ⟨s, rfl⟩ : ∃ s, stack = s + 1 := ⟨stack - 1, by omega⟩
    have hsub := sub_one_natCast (k + 1) (by
      have : k + 1 ≤ 22 := by omega
      exact le_trans this (by norm_num))
    simp only [calculateFactorial]
    rw [le_one_natCast k]
    simp only [Bool.false_eq_true, if_false]
    rw [hsub, ih (by omega) s (by omega)]
    simp only [Option.map_some', JSNumber.mul]
    have e : ((k + 1 + 1 : ℕ) : ℚ) * (((k + 1).factorial : ℕ) : ℚ) =
        (((k + 1 + 1).factorial : ℕ) : ℚ) := by
      rw [Nat.factorial_succ (k + 1)]
      push_cast
      ring
    rw [e, roundDouble_factorial (k + 1 + 1) (by omega)]

lemma calculateFactorial_stack_overflow (stack : ℕ) :
    ∀ k : ℕ, stack < k → k ≤ 2 ^ 53 →
      calculateFactorial stack (.finite (k : ℚ)) = none := by
  induction stack with
  | zero => intro k _ _; rfl
  | succ s ih =>
    intro k hk hk53
    obtain ⟨j, rfl⟩ : ∃ j, k = j + 2 := ⟨k - 2, by omega⟩
    simp only [calculateFactorial]
    rw [le_one_natCast j]
    simp only [Bool.false_eq_true, if_false]
    have hsub := sub_one_natCast (j + 1) (by omega)
    rw [hsub, ih (j + 1) (by omega) (by omega)]
    rfl

/-- C9, amended: `calculateFactorial(n)` returns 1 for every integer `n ≤ 1`,
and `n!` for `1 ≤ n ≤ 22` when the stack has room for `n` frames;
`processNumber(n, 'factorial')` returns what `calculateFactorial(n)` returns;
`processNumber(n, 'square')` is `n * n` rounded to the nearest double, which
is `n * n` itself when `n * n` is at most `2 ^ 53`; `processNumber(n, 'cube')`
is the rounded square times `n`, rounded, which is `n * n * n` itself when
that is at most `2 ^ 53` in magnitude; and any other operation name returns
`n` unchanged. -/
theorem processNumber_calculateFactorial_spec (n : ℤ) (stack : ℕ) (operation : String)
    (hop : operation ≠ "square" ∧ operation ≠ "cube" ∧ operation ≠ "factorial") :
    (n ≤ 1 → 1 ≤ stack → calculateFactorial stack (.finite (n : ℚ)) = some (.finite 1)) ∧
    (1 ≤ n → n ≤ 22 → n ≤ stack →
      calculateFactorial stack (.finite (n : ℚ)) =
        some (.finite ((n.toNat.factorial : ℕ) : ℚ))) ∧
    processNumber stack (.finite (n : ℚ)) "factorial" =
      calculateFactorial stack (.finite (n : ℚ)) ∧
    (n * n ≤ 2 ^ 53 →
      processNumber stack (.finite (n : ℚ)) "square" = some (.finite ((n * n : ℤ) : ℚ))) ∧
    (|n * n * n| ≤ 2 ^ 53 →
      processNumber stack (.finite (n : ℚ)) "cube" = some (.finite ((n * n * n : ℤ) : ℚ))) ∧
    processNumber stack (.finite (n : ℚ)) operation = some (.finite (n : ℚ)) ∧
    processNumber stack (.finite (n : ℚ)) "square" = some (roundDouble ((n : ℚ) * (n : ℚ))) ∧
    processNumber stack (.finite (n : ℚ)) "cube" =
      some ((roundDouble ((n : ℚ) * (n : ℚ))).mul (.finite (n : ℚ))) := by
  refine ⟨?_, ?_, ?_, ?_, ?_, ?_, ?_, ?_⟩
  · intro hn hs
    obtain ⟨s, rfl⟩ : ∃ s, stack = s + 1 := ⟨stack - 1, by omega⟩
    have : (n : ℚ) ≤ 1 := by exact_mod_cast hn
    simp [calculateFactorial, JSNumber.le, this]
  · intro h1 h22 hs
    obtain ⟨k, rfl⟩ : ∃ k : ℕ, n = ((k + 1 : ℕ) : ℤ) := ⟨(n - 1).toNat, by omega⟩
    have hk : k ≤ 21 := by omega
    have := calculateFactorial_exact k hk stack (by omega)
    simpa using this
  · simp [processNumber]
  · intro hsq
    have habs : |n * n| ≤ 2 ^ 53 := by
      rw [abs_of_nonneg (mul_self_nonneg n)]; exact hsq
    have := roundDouble_intCast (n * n) habs
    simp only [processNumber, if_true, JSNumber.mul]
    push_cast at this ⊢
    rw [this]
  · intro hcube
    have hsq : |n * n| ≤ 2 ^ 53 := by
      rcases eq_or_ne n 0 with h0 | h0
      · subst h0; norm_num
      · have h1 : (1 : ℤ) ≤ |n| := Int.one_le_abs h0
        have h2 : |n * n * n| = |n * n| * |n| := abs_mul _ _
        have h3 : 0 ≤ |n * n| := abs_nonneg _
        nlinarith
    have e1 := roundDouble_intCast (n * n) hsq
    have e2 := roundDouble_intCast (n * n * n) hcube
    have hne : ("cube" : String) ≠ "square" := by decide
    simp only [processNumber, if_neg hne, if_true, JSNumber.mul]
    push_cast at e1 e2 ⊢
    rw [e1]
    simp only [JSNumber.mul]
    rw [e2]
  · simp [processNumber, hop.1, hop.2.1, hop.2.2]
  · simp only [processNumber, if_true, JSNumber.mul]
  · have hne : ("cube" : String) ≠ "square" := by decide
    simp only [processNumber, if_neg hne, if_true, JSNumber.mul]

/-- For 5: the factorial is 120 along both routes, the square is 25, and an
unknown operation name gives 5 back. -/
theorem processNumber_calculateFactorial_spec_witness :
    calculateFactorial 5 (.finite 5) = some (.finite 120) ∧
      processNumber 5 (.finite 5) "factorial" = some (.finite 120) ∧
      processNumber 5 (.finite 5) "square" = some (.finite 25) ∧
      processNumber 5 (.finite 5) "double" = some (.finite 5) := by
  have h := processNumber_calculateFactorial_spec 5 5 "double" (by decide)
  have h5 : calculateFactorial 5 (.finite 5) = some (.finite 120) := by
    have := h.2.1 (by decide) (by decide) (by decide)
    norm_num [Nat.factorial] at this
    exact this
  have hsq := h.2.2.2.1 (by norm_num)
  have hfac := h.2.2.1
  have hother := h.2.2.2.2.2.1
  norm_num at hsq hfac hother
  exact ⟨h5, by rw [hfac, h5], hsq, hother⟩

lemma calculateFactorial_23 (stack : ℕ) (hs : 23 ≤ stack) :
    calculateFactorial stack (.finite 23) = some (.finite 25852016738884978212864) := by
  obtain ⟨s, rfl⟩ : ∃ s, stack = s + 1 := ⟨stack - 1, by omega⟩
  have h22 := calculateFactorial_exact 21 (le_refl _) s (by omega)
  have hsub := sub_one_natCast 22 (by norm_num)
  have hle := le_one_natCast 21
  norm_num at h22 hsub hle
  rw [calculateFactorial_succ]
  simp only [hle, Bool.false_eq_true, if_false, hsub, h22, Option.map_some', JSNumber.mul]
  have hval : ((22 : ℕ).factorial : ℚ) = 1124000727777607680000 := by
    norm_num [Nat.factorial]
  rw [hval]
  have := roundDouble_eval (23 * 1124000727777607680000) 74 6163601097794766
    (by norm_num) (by norm_num) (by norm_num)
    (by
      have := roundHalfEven_up
        (23 * 1124000727777607680000 / (2 : ℚ) ^ (max (74 : ℤ) (-1022) - 52))
        6163601097794765 (by norm_num) (by norm_num)
      simpa using this)
    (by norm_num)
  rw [this]
  norm_num

lemma processNumber_square (stack : ℕ) (x : JSNumber) :
    processNumber stack x "square" = some (x.mul x) := by
  simp [processNumber]

lemma mul_finite (a b : ℚ) :
    (JSNumber.finite a).mul (.finite b) = roundDouble (a * b) := rfl

lemma roundDouble_94906267_squared :
    roundDouble (94906267 * 94906267) = .finite 9007199515875288 := by
  have := roundDouble_eval (94906267 * 94906267) 53 4503599757937644
    (by norm_num) (by norm_num) (by norm_num)
    (by
      apply roundHalfEven_tie_even
      · norm_num
      · norm_num)
    (by norm_num)
  rw [this]
  norm_num

lemma calculateFactorial_10001 : calculateFactorial 10000 (.finite 10001) = none := by
  have h := calculateFactorial_stack_overflow 10000 10001 (by norm_num) (by norm_num)
  have e : JSNumber.finite ((10001 : ℕ) : ℚ) = .finite 10001 := by rw [Nat.cast_ofNat]
  rw [← e]
  exact h

/-- C9 as stated fails: the numbers are doubles and the stack is bounded.
`calculateFactorial(23)` is 25852016738884978212864, where `23!` is
25852016738884976640000; `processNumber(94906267, 'square')` is
9007199515875288, where the square is 9007199515875289; and on a stack with
room for 10000 frames `calculateFactorial(10001)` ends in a `RangeError`. -/
theorem calculateFactorial_rounds_from_23 :
    calculateFactorial 23 (.finite 23) = some (.finite 25852016738884978212864) ∧
      (((23 : ℕ).factorial : ℕ) : ℚ) = 25852016738884976640000 ∧
      processNumber 23 (.finite 94906267) "square" = some (.finite 9007199515875288) ∧
      (94906267 * 94906267 : ℚ) = 9007199515875289 ∧
      calculateFactorial 10000 (.finite 10001) = none := by
  refine ⟨?_, by norm_num [Nat.factorial], ?_, by norm_num, ?_⟩
  · exact calculateFactorial_23 23 (le_refl _)
  · rw [processNumber_square, mul_finite, roundDouble_94906267_squared]
  · exact calculateFactorial_10001

/-! ## Theorems: processArray -/

lemma add_finite (a b : ℚ) :
    (JSNumber.finite a).add (.finite b) = roundDouble (a + b) := rfl

lemma foldl_add_exact (zs : List ℤ) :
    ∀ acc : ℤ, (∀ k ≤ zs.length, |acc + (zs.take k).sum| ≤ 2 ^ 53) →
      (zs.map (fun z : ℤ => JSNumber.finite (z : ℚ))).foldl (fun (a curr : JSNumber) => a.add curr)
          (.finite (acc : ℚ)) = .finite ((acc + zs.sum : ℤ) : ℚ) := by
  induction zs with
  | nil => intro acc _; simp
  | cons z zs ih =>
    intro acc h
    have h1 : |acc + z| ≤ 2 ^ 53 := by
      have := h 1 (by simp)
      simpa using this
    have hstep : (JSNumber.finite (acc : ℚ)).add (.finite (z : ℚ)) =
        .finite ((acc + z : ℤ) : ℚ) := by
      rw [add_finite]
      have := roundDouble_intCast (acc + z) h1
      push_cast at this ⊢
      exact this
    rw [List.map_cons, List.foldl_cons, hstep]
    rw [ih (acc + z) (by
      intro k hk
      have := h (k + 1) (by simpa using hk)
      simpa [List.take_succ_cons, add_assoc] using this)]
    simp [add_assoc]

lemma reduceSum_exact (zs : List ℤ) (h : ∀ k ≤ zs.length, |(zs.take k).sum| ≤ 2 ^ 53) :
    reduceSum (zs.map (fun z : ℤ => JSNumber.finite (z : ℚ))) = .finite ((zs.sum : ℤ) : ℚ) := by
  have := foldl_add_exact zs 0 (by simpa using h)
  simpa [reduceSum] using this

lemma arrayResult_some (argLimit ref : ℕ) (xs : List JSNumber) (operation : String)
    (hargs : operation = "max" ∨ operation = "min" → xs.length ≤ argLimit) :
    ∃ res, arrayResult argLimit ref xs operation = some res ∧
      (operation = "sum" → res = .num (reduceSum xs)) := by
  unfold arrayResult
  by_cases h1 : operation = "sum"
  · exact ⟨_, by rw [if_pos h1], fun _ => rfl⟩
  · rw [if_neg h1]
    by_cases h2 : operation = "average"
    · exact ⟨_, by rw [if_pos h2], fun h => absurd h h1⟩
    · rw [if_neg h2]
      by_cases h3 : operation = "max"
      · rw [if_pos h3]
        have := hargs (Or.inl h3)
        exact ⟨.num (xs.foldl JSNumber.max .negInfinity),
          by simp [mathMax, Nat.not_lt.mpr this], fun h => absurd h h1⟩
      · rw [if_neg h3]
        by_cases h4 : operation = "min"
        · rw [if_pos h4]
          have := hargs (Or.inr h4)
          exact ⟨.num (xs.foldl JSNumber.min .posInfinity),
            by simp [mathMin, Nat.not_lt.mpr this], fun h => absurd h h1⟩
        · rw [if_neg h4]
          exact ⟨_, rfl, fun h => absurd h h1⟩

lemma processArray_of_result (argLimit : ℕ) (h : Heap) (ref : ℕ) (xs : List JSNumber)
    (operation : Option String) (res : ArrayResult) (harr : h.arrays[ref]? = some xs)
    (hres : arrayResult argLimit ref xs (operation.getD "sum") = some res) :
    processArray argLimit h (.array ref) operation =
      ({ arrays := h.arrays ++ [xs] },
       .ok { operation := operation.getD "sum", result := res,
             originalArray := h.arrays.length, arrayLength := xs.length }) := by
  simp only [processArray, harr, hres, Heap.alloc]

/-- C8, amended: on an array of numbers (reference `ref`, elements `xs`; for
`'max'` and `'min'` no longer than the engine's argument limit) `processArray`
changes no array of the heap, `arr` included; it returns a record whose
`originalArray` is a new array with the elements of `arr`, whose
`arrayLength` is the length of `arr` and whose `operation` is the operation
name; for `'sum'`, also when the name is omitted, `result` is the elements
added to `0` from left to right in double arithmetic: `0` for no element,
and the exact sum when the elements are integers and no partial sum exceeds
`2 ^ 53` in magnitude; and a value that is no array gets the error record. -/
theorem processArray_spec (argLimit : ℕ) (h : Heap) (ref : ℕ) (xs : List JSNumber)
    (operation : Option String) (harr : h.arrays[ref]? = some xs)
    (hargs : operation.getD "sum" = "max" ∨ operation.getD "sum" = "min" →
      xs.length ≤ argLimit) :
    (∃ (r : Processed) (h1 : Heap),
      processArray argLimit h (.array ref) operation = (h1, .ok r) ∧
      (∀ (q : ℕ) (ys : List JSNumber), h.arrays[q]? = some ys → h1.arrays[q]? = some ys) ∧
      h1.arrays[ref]? = some xs ∧
      r.originalArray ≠ ref ∧ h.arrays[r.originalArray]? = none ∧
      h1.arrays[r.originalArray]? = some xs ∧
      r.arrayLength = xs.length ∧
      r.operation = operation.getD "sum" ∧
      (operation.getD "sum" = "sum" →
        r.result = .num (xs.foldl (fun (acc curr : JSNumber) => acc.add curr) (.finite 0))) ∧
      (operation.getD "sum" = "sum" → ∀ zs : List ℤ,
        xs = zs.map (fun z : ℤ => JSNumber.finite (z : ℚ)) →
        (∀ k ≤ zs.length, |(zs.take k).sum| ≤ 2 ^ 53) →
        r.result = .num (.finite ((zs.sum : ℤ) : ℚ))) ∧
      (xs = [] → operation.getD "sum" = "sum" → r.result = .num (.finite 0))) ∧
    (∀ v : JSValue, (∀ q, v ≠ .array q) →
      processArray argLimit h v operation = (h, .error "Input must be an array")) := by
  have hlt : ref < h.arrays.length := by
    rcases Nat.lt_or_ge ref h.arrays.length with hl | hl
    · exact hl
    · rw [List.getElem?_eq_none hl] at harr; cases harr
  obtain ⟨res, hres, hsum⟩ := arrayResult_some argLimit ref xs (operation.getD "sum") hargs
  constructor
  · refine ⟨_, _, processArray_of_result argLimit h ref xs operation res harr hres,
      ?_, ?_, ?_, ?_, ?_, rfl, rfl, ?_, ?_, ?_⟩
    · intro q ys hq
      have hq' : q < h.arrays.length := by
        rcases Nat.lt_or_ge q h.arrays.length with hl | hl
        · exact hl
        · rw [List.getElem?_eq_none hl] at hq; cases hq
      show (h.arrays ++ [xs])[q]? = some ys
      rw [List.getElem?_append_left hq']; exact hq
    · show (h.arrays ++ [xs])[ref]? = some xs
      rw [List.getElem?_append_left hlt]; exact harr
    · show h.arrays.length ≠ ref
      omega
    · show h.arrays[h.arrays.length]? = none
      exact List.getElem?_eq_none (le_refl _)
    · show (h.arrays ++ [xs])[h.arrays.length]? = some xs
      simp
    · intro hs
      show res = _
      rw [hsum hs]; rfl
    · intro hs zs hzs hpart
      show res = _
      rw [hsum hs, hzs, reduceSum_exact zs hpart]
    · intro hnil hs
      show res = _
      rw [hsum hs, hnil]; rfl
  · intro v hv
    cases v with
    | array q => exact absurd rfl (hv q)
    | _ => rfl

/-- The array `[1, 2, 3]` with the operation omitted: the sum is 6, the copy
is a new array, the argument is as before; the number 7 gets the error. -/
theorem processArray_spec_witness :
    (∃ (r : Processed) (h1 : Heap),
      processArray 65536 { arrays := [[.finite 1, .finite 2, .finite 3]] } (.array 0) none =
        (h1, .ok r) ∧
      h1.arrays[0]? = some [.finite 1, .finite 2, .finite 3] ∧ r.originalArray ≠ 0 ∧
      h1.arrays[r.originalArray]? = some [.finite 1, .finite 2, .finite 3] ∧
      r.arrayLength = 3 ∧ r.operation = "sum" ∧ r.result = .num (.finite 6)) ∧
    processArray 65536 { arrays := [[.finite 1, .finite 2, .finite 3]] }
        (.number (.finite 7)) none =
      ({ arrays := [[.finite 1, .finite 2, .finite 3]] }, .error "Input must be an array") := by
  have h := processArray_spec 65536 { arrays := [[.finite 1, .finite 2, .finite 3]] } 0
    [.finite 1, .finite 2, .finite 3] none rfl
    (fun h => by rcases h with h | h <;> exact absurd h (by decide))
  obtain ⟨⟨r, h1, hrun, -, hsame, hne, -, hcopy, hlen, hop, -, hsum, -⟩, herr⟩ := h
  refine ⟨⟨r, h1, hrun, hsame, hne, hcopy, hlen, hop, ?_⟩,
    herr (.number (.finite 7)) (by intro q; simp)⟩
  have := hsum rfl [1, 2, 3] (by norm_num) (by
    intro k hk
    have hk3 : k ≤ 3 := by simpa using hk
    interval_cases k <;> norm_num)
  rw [this]
  norm_num

lemma roundDouble_two_pow_53_add_one :
    roundDouble (9007199254740992 + 1) = .finite 9007199254740992 := by
  have := roundDouble_eval (9007199254740992 + 1) 53 4503599627370496
    (by norm_num) (by norm_num) (by norm_num)
    (by
      apply roundHalfEven_tie_even
      · norm_num
      · norm_num)
    (by norm_num)
  rw [this]
  norm_num

lemma reduceSum_pair (a b : JSNumber) :
    reduceSum [a, b] = ((JSNumber.finite 0).add a).add b := by
  simp only [reduceSum, List.foldl_cons, List.foldl_nil]

lemma reduceSum_two_pow_53_one :
    reduceSum [.finite 9007199254740992, .finite 1] = .finite 9007199254740992 := by
  have h0 : roundDouble (0 + 9007199254740992) = .finite 9007199254740992 := by
    have := roundDouble_eval (0 + 9007199254740992) 53 4503599627370496
      (by norm_num) (by norm_num) (by norm_num)
      (by
        apply roundHalfEven_down
        · norm_num
        · norm_num)
      (by norm_num)
    rw [this]
    norm_num
  rw [reduceSum_pair, add_finite, h0, add_finite, roundDouble_two_pow_53_add_one]

/-- C8 as stated fails: the elements are doubles.  For the array
`[9007199254740992, 1]` (`2 ^ 53` and 1) the `result` of `'sum'` is
9007199254740992, which is not the sum of the elements. -/
theorem processArray_sum_is_rounded :
    processArray 65536 { arrays := [[.finite 9007199254740992, .finite 1]] } (.array 0) none =
        ({ arrays := [[.finite 9007199254740992, .finite 1],
                      [.finite 9007199254740992, .finite 1]] },
         .ok { operation := "sum", result := .num (.finite 9007199254740992),
               originalArray := 1, arrayLength := 2 }) ∧
      (9007199254740992 : ℚ) ≠ 9007199254740992 + 1 := by
  refine ⟨?_, by norm_num⟩
  have hres : arrayResult 65536 0 [.finite 9007199254740992, .finite 1]
      ((none : Option String).getD "sum") = some (.num (.finite 9007199254740992)) := by
    show arrayResult 65536 0 [.finite 9007199254740992, .finite 1] "sum" = _
    unfold arrayResult
    rw [if_pos rfl, reduceSum_two_pow_53_one]
  exact processArray_of_result 65536 { arrays := [[.finite 9007199254740992, .finite 1]] } 0
    [.finite 9007199254740992, .finite 1] none _ rfl hres

/-! ## Theorems: the timer queue -/

lemma nextTimer_single {τ : Type} (t : Timer τ) : nextTimer [t] = some t := rfl

lemma runTimers_no_timer {σ τ : Type} (fire : τ → EventLoop σ τ → EventLoop σ τ)
    (fuel : Nat) (limit : Option Nat) (w : EventLoop σ τ) (h : w.timers = []) :
    runTimers fire fuel limit w = w := by
  cases fuel with
  | zero => rfl
  | succ n => simp [runTimers, fireNext, h, nextTimer]

lemma runTimers_not_due {σ τ : Type} (fire : τ → EventLoop σ τ → EventLoop σ τ)
    (fuel limit : Nat) (w : EventLoop σ τ) (t : Timer τ) (h : w.timers = [t])
    (hdue : limit < t.due) : runTimers fire fuel (some limit) w = w := by
  cases fuel with
  | zero => rfl
  | succ n =>
    have : ¬ t.due ≤ limit := by omega
    simp [runTimers, fireNext, h, nextTimer, withinLimit, this]

lemma runTimers_single_due {σ τ : Type} (fire : τ → EventLoop σ τ → EventLoop σ τ)
    (fuel : Nat) (limit : Option Nat) (w : EventLoop σ τ) (t : Timer τ) (h : w.timers = [t])
    (hdue : withinLimit limit t.due = true) :
    runTimers fire (fuel + 1) limit w =
      runTimers fire fuel limit (fire t.task { w with now := max w.now t.due, timers := [] }) := by
  simp [runTimers, fireNext, h, nextTimer, hdue]

/-! ## Theorems: debounce -/

lemma debounceCall_first {α : Type} (wait fuel : Nat) (c : Nat × α) :
    DebouncePending wait c.2 (debounceCall wait fuel (debounce α) c) ∧
      (debounceCall wait fuel (debounce α) c).now = c.1 := by
  have h0 : runTimers debounceFire fuel (some ((debounce α).now + c.1)) (debounce α) =
      debounce α := runTimers_no_timer _ _ _ _ rfl
  have e : debounceCall wait fuel (debounce α) c =
      executedFunction wait c.2
        { debounce α with now := max (debounce α).now ((debounce α).now + c.1) } := by
    simp only [debounceCall, advanceTo, h0]
  rw [e]
  refine ⟨⟨1, ?_, ?_, ?_⟩, ?_⟩ <;>
    simp [executedFunction, EventLoop.clearTimeout, EventLoop.setTimeout, debounce]

lemma debounceCall_pending {α : Type} (wait fuel : Nat) (a : α) (c : Nat × α)
    (w : EventLoop (DebounceState α) (DebounceTask α)) (hp : DebouncePending wait a w)
    (hgap : c.1 < wait) :
    DebouncePending wait c.2 (debounceCall wait fuel w c) ∧
      (debounceCall wait fuel w c).now = w.now + c.1 := by
  obtain ⟨id, ht, hto, hex⟩ := hp
  have h0 : runTimers debounceFire fuel (some (w.now + c.1)) w = w :=
    runTimers_not_due _ _ _ _ _ ht (by simp; omega)
  have e : debounceCall wait fuel w c =
      executedFunction wait c.2 { w with now := max w.now (w.now + c.1) } := by
    simp only [debounceCall, advanceTo, h0]
  rw [e]
  refine ⟨⟨w.nextId, ?_, ?_, ?_⟩, ?_⟩ <;>
    simp [executedFunction, EventLoop.clearTimeout, EventLoop.setTimeout, hto, ht, hex]

lemma debounce_fold {α : Type} (wait fuel : Nat) (rest : List (Nat × α)) :
    ∀ (c : Nat × α) (w : EventLoop (DebounceState α) (DebounceTask α)),
      DebouncePending wait c.2 w → (∀ d ∈ rest, d.1 < wait) →
      DebouncePending wait ((c :: rest).getLast (List.cons_ne_nil c rest)).2
          (rest.foldl (debounceCall wait fuel) w) ∧
        (rest.foldl (debounceCall wait fuel) w).now = w.now + (rest.map Prod.fst).sum := by
  induction rest with
  | nil => intro c w hp _; exact ⟨by simpa using hp, by simp⟩
  | cons d rest ih =>
    intro c w hp hgap
    have hd := debounceCall_pending wait fuel c.2 d w hp (hgap d (by simp))
    have h := ih d (debounceCall wait fuel w d) hd.1 (fun e he => hgap e (by simp [he]))
    refine ⟨?_, ?_⟩
    · simpa [List.getLast_cons_cons] using h.1
    · rw [List.foldl_cons, h.2, hd.2]; simp [Nat.add_assoc]

lemma debounce_drain {α : Type} (wait fuel : Nat) (a : α)
    (w : EventLoop (DebounceState α) (DebounceTask α)) (hp : DebouncePending wait a w)
    (hfuel : 1 ≤ fuel) :
    (runTimers debounceFire fuel none w).st.executed = [(w.now + wait, a)] ∧
      (runTimers debounceFire fuel none w).timers = [] := by
  obtain ⟨id, ht, hto, hex⟩ := hp
  obtain ⟨n, rfl⟩ : ∃ n, fuel = n + 1 := ⟨fuel - 1, by omega⟩
  rw [runTimers_single_due debounceFire n none w _ ht rfl]
  rw [runTimers_no_timer _ _ _ _ (by simp [debounceFire, EventLoop.clearTimeout, hto])]
  simp [debounceFire, EventLoop.clearTimeout, hto, hex]

/-- C1: when the debounced function is called once or more, every call after
the first less than `wait` after the one before, and then left alone, `func`
runs exactly once: `wait` after the last call and with the arguments of the
last call.  Nothing remains pending.  (The record of executions only grows,
so no other arguments were ever passed.) -/
theorem debounce_runs_last_call_once {α : Type} (wait fuel : Nat) (first : Nat × α)
    (rest : List (Nat × α)) (hwait : 0 < wait) (hfuel : 1 ≤ fuel)
    (hgap : ∀ c ∈ rest, c.1 < wait) :
    (debounceRun wait fuel (first :: rest)).st.executed =
        [(((first :: rest).map Prod.fst).sum + wait,
          ((first :: rest).getLast (List.cons_ne_nil first rest)).2)] ∧
      (debounceRun wait fuel (first :: rest)).timers = [] := by
  have _ := hwait
  have h1 := debounceCall_first wait fuel first
  have h2 := debounce_fold wait fuel rest first _ h1.1 hgap
  have h3 := debounce_drain wait fuel _ _ h2.1 hfuel
  unfold debounceRun
  rw [List.foldl_cons]
  refine ⟨?_, h3.2⟩
  rw [h3.1, h2.2, h1.2]
  simp

/-- Three calls at times 0, 2 and 4 with `wait = 3`: one execution, at time
7, with the arguments of the third call. -/
theorem debounce_runs_last_call_once_witness :
    (debounceRun 3 1 [(0, "a"), (2, "b"), (2, "c")]).st.executed = [(7, "c")] ∧
      (debounceRun 3 1 [(0, "a"), (2, "b"), (2, "c")]).timers = [] :=
  debounce_runs_last_call_once 3 1 (0, "a") [(2, "b"), (2, "c")] (by decide) (by decide)
    (by decide)

/-! ## Theorems: throttle -/

lemma throttle_advance {α : Type} (limit fuel gap : Nat)
    (w : EventLoop (ThrottleState α) ThrottleTask) (hinv : ThrottleInv limit w)
    (hfuel : 1 ≤ fuel) :
    ((advanceTo throttleFire fuel (w.now + gap) w).st.inThrottle = false ∧
      (advanceTo throttleFire fuel (w.now + gap) w).timers = [] ∧
      (advanceTo throttleFire fuel (w.now + gap) w).st.executed = w.st.executed ∧
      (advanceTo throttleFire fuel (w.now + gap) w).now = w.now + gap ∧
      ∀ x ∈ w.st.executed, x.1 + limit ≤ w.now + gap) ∨
    (advanceTo throttleFire fuel (w.now + gap) w = { w with now := w.now + gap } ∧
      w.st.inThrottle = true ∧
      ∃ id e, w.timers = [{ id := id, due := e + limit, task := .reset }] ∧
        (∀ x ∈ w.st.executed, x.1 ≤ e) ∧ w.now + gap < e + limit) := by
  obtain ⟨-, -, hA | hB⟩ := hinv
  · obtain ⟨hflag, ht, hold⟩ := hA
    left
    have h0 := runTimers_no_timer throttleFire fuel (some (w.now + gap)) w ht
    refine ⟨?_, ?_, ?_, ?_, ?_⟩
    · simp only [advanceTo, h0]; exact hflag
    · simp only [advanceTo, h0]; exact ht
    · simp only [advanceTo, h0]
    · simp [advanceTo, h0]
    · intro x hx
      have := hold x hx
      omega
  · obtain ⟨hflag, id, e, ht, hle, hnow⟩ := hB
    by_cases hdue : e + limit ≤ w.now + gap
    · left
      obtain ⟨n, rfl⟩ : ∃ n, fuel = n + 1 := ⟨fuel - 1, by omega⟩
      have hw : withinLimit (some (w.now + gap))
          ({ id := id, due := e + limit, task := ThrottleTask.reset } : Timer ThrottleTask).due
            = true := by
        simp [withinLimit, hdue]
      simp only [advanceTo]
      rw [runTimers_single_due throttleFire n _ w _ ht hw]
      rw [runTimers_no_timer _ _ _ _ (by simp [throttleFire])]
      refine ⟨by simp [throttleFire], by simp [throttleFire], by simp [throttleFire], ?_, ?_⟩
      · simp [throttleFire]
        omega
      · intro x hx
        have := hle x hx
        omega
    · right
      have h0 : runTimers throttleFire fuel (some (w.now + gap)) w = w :=
        runTimers_not_due _ _ _ _ _ ht (by simp; omega)
      refine ⟨?_, hflag, id, e, ht, hle, by omega⟩
      simp only [advanceTo, h0]
      simp

lemma throttleCall_step {α : Type} (limit fuel : Nat) (c : Nat × α)
    (w : EventLoop (ThrottleState α) ThrottleTask) (hinv : ThrottleInv limit w)
    (hlimit : 0 < limit) (hfuel : 1 ≤ fuel) :
    ThrottleInv limit (throttleCall limit fuel w c) ∧
      (throttleCall limit fuel w c).now = w.now + c.1 ∧
      (w.st.inThrottle = false →
        (throttleCall limit fuel w c).st.executed = w.st.executed ++ [(w.now + c.1, c.2)]) ∧
      (∃ more, (throttleCall limit fuel w c).st.executed = w.st.executed ++ more) ∧
      ((∃ x ∈ w.st.executed, w.now + c.1 < x.1 + limit) →
        (throttleCall limit fuel w c).st.executed = w.st.executed ∧
        (throttleCall limit fuel w c).timers = w.timers) := by
  have hpair := hinv.1
  have hpast := hinv.2.1
  rcases throttle_advance limit fuel c.1 w hinv hfuel with
    ⟨hflag, ht, hex, hnow, hold⟩ | ⟨hadv, hflag, id, e, ht, hle, hnow⟩
  · have hcall : throttleCall limit fuel w c =
        ((({ advanceTo throttleFire fuel (w.now + c.1) w with
            st := { inThrottle := true,
                    executed := w.st.executed ++ [(w.now + c.1, c.2)] } } :
            EventLoop (ThrottleState α) ThrottleTask).setTimeout .reset limit).1) := by
      simp only [throttleCall, throttled, hflag, hex, hnow]
      simp
    have hex2 : (throttleCall limit fuel w c).st.executed =
        w.st.executed ++ [(w.now + c.1, c.2)] := by
      rw [hcall]; simp [EventLoop.setTimeout]
    have hnow2 : (throttleCall limit fuel w c).now = w.now + c.1 := by
      rw [hcall]; simp [EventLoop.setTimeout, hnow]
    refine ⟨⟨?_, ?_, Or.inr ⟨?_, ?_⟩⟩, hnow2, fun _ => hex2, ⟨_, hex2⟩, ?_⟩
    · rw [hex2, List.pairwise_append]
      refine ⟨hpair, by simp, ?_⟩
      intro x hx y hy
      simp at hy
      subst hy
      exact hold x hx
    · intro x hx
      rw [hex2] at hx
      rw [hnow2]
      simp at hx
      rcases hx with hx | hx
      · have := hpast x hx
        omega
      · subst hx; simp
    · rw [hcall]; simp [EventLoop.setTimeout]
    · refine ⟨(advanceTo throttleFire fuel (w.now + c.1) w).nextId, w.now + c.1, ?_, ?_, ?_⟩
      · rw [hcall]; simp [EventLoop.setTimeout, ht, hnow]
      · intro x hx
        rw [hex2] at hx
        simp at hx
        rcases hx with hx | hx
        · have := hpast x hx
          omega
        · subst hx; simp
      · rw [hnow2]; omega
    · rintro ⟨x, hx, hlt⟩
      have := hold x hx
      omega
  · have hcall : throttleCall limit fuel w c = { w with now := w.now + c.1 } := by
      simp only [throttleCall, throttled, hadv, hflag]
      simp
    rw [hcall]
    refine ⟨⟨hpair, ?_, Or.inr ⟨hflag, id, e, ht, hle, hnow⟩⟩, rfl, ?_, ⟨[], by simp⟩,
      fun _ => ⟨rfl, rfl⟩⟩
    · intro x hx
      have := hpast x hx
      show x.1 ≤ w.now + c.1
      omega
    · intro h; rw [hflag] at h; cases h

lemma throttle_fold {α : Type} (limit fuel : Nat) (hlimit : 0 < limit) (hfuel : 1 ≤ fuel)
    (calls : List (Nat × α)) :
    ∀ w : EventLoop (ThrottleState α) ThrottleTask, ThrottleInv limit w →
      ThrottleInv limit (calls.foldl (throttleCall limit fuel) w) ∧
        (calls.foldl (throttleCall limit fuel) w).now = w.now + (calls.map Prod.fst).sum ∧
        ∃ more, (calls.foldl (throttleCall limit fuel) w).st.executed =
          w.st.executed ++ more := by
  induction calls with
  | nil => intro w hinv; exact ⟨hinv, by simp, [], by simp⟩
  | cons c calls ih =>
    intro w hinv
    obtain ⟨hinv1, hnow1, -, ⟨m1, hm1⟩, -⟩ := throttleCall_step limit fuel c w hinv hlimit hfuel
    obtain ⟨hinv2, hnow2, m2, hm2⟩ := ih _ hinv1
    refine ⟨hinv2, ?_, m1 ++ m2, ?_⟩
    · rw [List.foldl_cons, hnow2, hnow1]; simp [Nat.add_assoc]
    · rw [List.foldl_cons, hm2, hm1, List.append_assoc]

lemma throttle_init_inv (α : Type) (limit : Nat) : ThrottleInv limit (throttle α) := by
  refine ⟨by simp [throttle], by simp [throttle], Or.inl ⟨rfl, rfl, by simp [throttle]⟩⟩

/-- C2: for `limit > 0` and any sequence of calls of the throttled function:
the first call executes `func` at once; a call made less than `limit` after an
execution executes nothing and registers nothing (the record of executions
and the pending timers stay as they were); and any two executions are at
least `limit` apart. -/
theorem throttle_first_runs_window_drops {α : Type} (limit fuel : Nat)
    (calls : List (Nat × α)) (hlimit : 0 < limit) (hfuel : 1 ≤ fuel) :
    (∀ (c : Nat × α) (rest : List (Nat × α)), calls = c :: rest →
      ∃ more, (throttleRun limit fuel calls).st.executed = (c.1, c.2) :: more) ∧
    (∀ c : Nat × α,
      (∃ x ∈ (throttleRun limit fuel calls).st.executed,
        (throttleRun limit fuel calls).now + c.1 < x.1 + limit) →
      (throttleRun limit fuel (calls ++ [c])).st.executed =
          (throttleRun limit fuel calls).st.executed ∧
        (throttleRun limit fuel (calls ++ [c])).timers =
          (throttleRun limit fuel calls).timers) ∧
    (throttleRun limit fuel calls).st.executed.Pairwise (fun x y => x.1 + limit ≤ y.1) := by
  have hall := throttle_fold limit fuel hlimit hfuel calls (throttle α)
    (throttle_init_inv α limit)
  refine ⟨?_, ?_, hall.1.1⟩
  · intro c rest hc
    subst hc
    obtain ⟨hinv1, -, hfirst, -, -⟩ :=
      throttleCall_step limit fuel c (throttle α) (throttle_init_inv α limit) hlimit hfuel
    obtain ⟨-, -, more, hmore⟩ := throttle_fold limit fuel hlimit hfuel rest _ hinv1
    refine ⟨more, ?_⟩
    unfold throttleRun
    rw [List.foldl_cons, hmore, hfirst rfl]
    simp [throttle]
  · intro c hc
    have hstep := (throttleCall_step limit fuel c _ hall.1 hlimit hfuel).2.2.2.2 hc
    unfold throttleRun at hc ⊢
    rw [List.foldl_append]
    exact hstep

/-- Calls at times 0, 400 and 1000 with `limit = 1000`: the first executes at
time 0, the second, 400 after it, is dropped and leaves the timers as they
were, and the executions at 0 and 1000 are 1000 apart. -/
theorem throttle_first_runs_window_drops_witness :
    (∃ more, (throttleRun 1000 1 [(0, "a"), (400, "b"), (600, "c")]).st.executed =
      (0, "a") :: more) ∧
    ((throttleRun 1000 1 ([(0, "a")] ++ [(400, "b")])).st.executed =
        (throttleRun 1000 1 [(0, "a")]).st.executed ∧
      (throttleRun 1000 1 ([(0, "a")] ++ [(400, "b")])).timers =
        (throttleRun 1000 1 [(0, "a")]).timers) ∧
    (throttleRun 1000 1 [(0, "a"), (400, "b"), (600, "c")]).st.executed.Pairwise
      (fun x y => x.1 + 1000 ≤ y.1) :=
  ⟨(throttle_first_runs_window_drops 1000 1 [(0, "a"), (400, "b"), (600, "c")]
      (by decide) (by decide)).1 (0, "a") _ rfl,
   (throttle_first_runs_window_drops 1000 1 [(0, "a")] (by decide) (by decide)).2.1
      (400, "b") ⟨(0, "a"), by decide, by decide⟩,
   (throttle_first_runs_window_drops 1000 1 [(0, "a"), (400, "b"), (600, "c")]
      (by decide) (by decide)).2.2⟩

lemma spaced_length_bound (limit hi : Nat) :
    ∀ (l : List (Nat × α)) (lo : Nat), l.Pairwise (fun x y => x.1 + limit ≤ y.1) →
      (∀ x ∈ l, lo ≤ x.1 ∧ x.1 ≤ hi) → l = [] ∨ l.length * limit + lo ≤ hi + limit := by
  intro l
  induction l with
  | nil => intro _ _ _; exact Or.inl rfl
  | cons x l ih =>
    intro lo hp hb
    right
    rw [List.pairwise_cons] at hp
    have hx := hb x (by simp)
    rcases ih (x.1 + limit) hp.2 (fun y hy => ⟨hp.1 y hy, (hb y (by simp [hy])).2⟩) with h | h
    · subst h; simp; omega
    · simp only [List.length_cons, Nat.succ_mul]
      omega

/-- C3 as stated fails: with `limit = 1000`, calls at times 0 and 1000 lie in
an interval of length `D = 1000`, both execute, and `ceil(D / L) = 1`. -/
theorem throttle_ceil_bound_fails :
    (throttleRun 1000 1 [(0, "first"), (1000, "second")]).st.executed =
        [(0, "first"), (1000, "second")] ∧
      (([(0, "first"), (1000, "second")] : List (Nat × String)).map Prod.fst).sum ≤ 1000 ∧
      ¬ ((throttleRun 1000 1 [(0, "first"), (1000, "second")]).st.executed.length ≤
          ceilDiv 1000 1000) := by
  decide

/-- C3, amended: for `limit > 0`, calls spread over an interval of length `D`
(the distances between them add up to at most `D`) execute `func` at most
`floor(D / limit) + 1` times. -/
theorem throttle_executions_le_floor_succ {α : Type} (limit fuel D : Nat)
    (calls : List (Nat × α)) (hlimit : 0 < limit) (hfuel : 1 ≤ fuel)
    (hD : (calls.map Prod.fst).sum ≤ D) :
    (throttleRun limit fuel calls).st.executed.length ≤ D / limit + 1 := by
  obtain ⟨hinv, hnow, -⟩ := throttle_fold limit fuel hlimit hfuel calls (throttle α)
    (throttle_init_inv α limit)
  have hnow0 : (throttleRun limit fuel calls).now ≤ D := by
    unfold throttleRun; rw [hnow]; simpa [throttle] using hD
  have hb := spaced_length_bound limit D (throttleRun limit fuel calls).st.executed 0 hinv.1
    (fun x hx => ⟨Nat.zero_le _, le_trans (hinv.2.1 x hx) hnow0⟩)
  rcases hb with h | h
  · rw [h]; simp
  · have h2 : (throttleRun limit fuel calls).st.executed.length * limit ≤
        (D / limit + 1) * limit + (limit - 1) := by
      have := Nat.div_add_mod D limit
      have := Nat.mod_lt D hlimit
      have hm : (D / limit + 1) * limit = limit * (D / limit) + limit := by ring
      omega
    by_contra hc
    have hc' : D / limit + 2 ≤ (throttleRun limit fuel calls).st.executed.length := by omega
    have := Nat.mul_le_mul_right limit hc'
    have hm : (D / limit + 2) * limit = (D / limit + 1) * limit + limit := by ring
    omega

/-- Calls at times 0, 1000 and 1500 with `limit = 1000` and `D = 1500`: at
most two executions. -/
theorem throttle_executions_le_floor_succ_witness :
    (throttleRun 1000 1 [(0, "a"), (1000, "b"), (500, "c")]).st.executed.length ≤
      1500 / 1000 + 1 :=
  throttle_executions_le_floor_succ 1000 1 1500 [(0, "a"), (1000, "b"), (500, "c")]
    (by decide) (by decide) (by decide)

/-! ## Theorems: chainAnimations -/

lemma chainRecords_succ (animations : List (Option ClassToken)) (interval j : Nat) :
    chainRecords animations interval (j + 1) =
      chainRecords animations interval j ++
        [{ time := j * interval, index := j, animation := (animations[j]?).join }] := by
  simp [chainRecords, List.range_succ]

lemma chainRecords_animation (animations : List (Option ClassToken)) (interval : Nat) :
    (chainRecords animations interval animations.length).map StepRecord.animation =
      animations := by
  apply List.ext_getElem?
  intro i
  simp only [chainRecords, List.map_map, List.getElem?_map]
  by_cases hi : i < animations.length
  · rw [List.getElem?_range hi]
    simp [List.getElem?_eq_getElem hi]
  · have hi' : animations.length ≤ i := by omega
    rw [List.getElem?_eq_none hi']
    rw [List.getElem?_eq_none (by simpa using hi')]
    rfl

lemma chainRecords_drop (animations : List (Option ClassToken)) (interval j : Nat)
    (hj : j ≤ animations.length) :
    (chainRecords animations interval animations.length).map StepRecord.animation =
      (chainRecords animations interval j).map StepRecord.animation ++ animations.drop j := by
  have h1 := chainRecords_animation animations interval
  have h2 : (chainRecords animations interval j).map StepRecord.animation =
      animations.take j := by
    apply List.ext_getElem?
    intro i
    simp only [chainRecords, List.map_map, List.getElem?_map]
    by_cases hi : i < j
    · rw [List.getElem?_range hi, List.getElem?_take_of_lt hi]
      have hi2 : i < animations.length := by omega
      simp [List.getElem?_eq_getElem hi2]
    · have hi' : j ≤ i := by omega
      rw [List.getElem?_eq_none (by simpa using hi')]
      rw [List.getElem?_eq_none (by simp; omega)]
      rfl
  rw [h1, h2, List.take_append_drop]

lemma chainRecords_index_lt (animations : List (Option ClassToken)) (interval j : Nat)
    (r : StepRecord) (hr : r ∈ chainRecords animations interval j) : r.index < j := by
  simp only [chainRecords, List.mem_map, List.mem_range] at hr
  obtain ⟨i, hi, rfl⟩ := hr
  exact hi

lemma foldl_take_succ (element : String) (animations : List (Option ClassToken)) (j : Nat)
    (hj : j < animations.length) :
    (animations.take (j + 1)).foldl applyAnimation element =
      applyAnimation ((animations.take j).foldl applyAnimation element)
        (animations[j]?).join := by
  rw [List.take_succ, List.foldl_append, List.getElem?_eq_getElem hj]
  simp

lemma runNextAnimation_step (element : String) (animations : List (Option ClassToken))
    (interval j : Nat) (w : EventLoop ChainState ChainTask) (hj : j < animations.length)
    (hc : w.st.currentIndex = j) (ha : w.st.applied = chainRecords animations interval j)
    (hn : w.now = j * interval) (ht : w.timers = [])
    (hcl : w.st.className = (animations.take j).foldl applyAnimation element) :
    ChainMid element animations interval (j + 1) (runNextAnimation animations interval w) := by
  have hlt : w.st.currentIndex < animations.length := by omega
  unfold runNextAnimation
  rw [if_pos hlt]
  refine ⟨by omega, by omega, ?_, ?_, ?_, ?_, w.nextId, ?_⟩
  · simp [EventLoop.setTimeout, hc]
  · simp [EventLoop.setTimeout, hc, ha, hn, chainRecords_succ]
  · simp [EventLoop.setTimeout, hn]
  · rw [foldl_take_succ element animations j hj]
    simp [EventLoop.setTimeout, hc, hcl]
  · simp [EventLoop.setTimeout, hn, ht, Nat.succ_mul]

lemma runNextAnimation_done (animations : List (Option ClassToken)) (interval : Nat)
    (w : EventLoop ChainState ChainTask) (hc : w.st.currentIndex = animations.length) :
    runNextAnimation animations interval w = w := by
  unfold runNextAnimation
  rw [if_neg (by omega)]

lemma chainAnimations_state (element : String) (animations : List (Option ClassToken))
    (interval : Option Nat) :
    (0 < animations.length ∧
      ChainMid element animations (interval.getD 1000) 1
        (chainAnimations element animations interval)) ∨
    (animations.length = 0 ∧
      ChainDone element animations (interval.getD 1000)
        (chainAnimations element animations interval)) := by
  by_cases hk : 0 < animations.length
  · left
    exact ⟨hk, runNextAnimation_step element animations _ 0 (chainStart element) hk rfl rfl
      (by simp [chainStart]) rfl (by simp [chainStart])⟩
  · right
    have hk0 : animations.length = 0 := by omega
    have hnil : animations = [] := List.length_eq_zero.mp hk0
    unfold chainAnimations
    rw [runNextAnimation_done _ _ _ (by simp [chainStart, hk0])]
    exact ⟨hk0, by simp [chainStart, hk0], by simp [chainStart, hk0, chainRecords],
      by simp [chainStart, hk0], rfl, by simp [chainStart, hnil]⟩

lemma chain_fire_mid (element : String) (animations : List (Option ClassToken))
    (interval j : Nat) (w : EventLoop ChainState ChainTask)
    (hm : ChainMid element animations interval j w) :
    ∃ w1, fireNext (chainFire animations interval) none w = some w1 ∧
      ((j < animations.length ∧ ChainMid element animations interval (j + 1) w1) ∨
        (j = animations.length ∧ ChainDone element animations interval w1 ∧
          w1.st = w.st)) := by
  obtain ⟨h1, hk, hc, ha, hn, hcl, id, ht⟩ := hm
  have hmax : max w.now (j * interval) = j * interval := by
    rw [hn]
    apply max_eq_right
    exact Nat.mul_le_mul_right _ (by omega)
  have hfire : fireNext (chainFire animations interval) none w =
      some (runNextAnimation animations interval
        { w with now := j * interval, timers := [] }) := by
    simp [fireNext, ht, nextTimer, withinLimit, chainFire, hmax]
  refine ⟨_, hfire, ?_⟩
  by_cases hlt : j < animations.length
  · left
    exact ⟨hlt, runNextAnimation_step element animations interval j _ hlt hc ha rfl rfl hcl⟩
  · right
    have hjk : j = animations.length := by omega
    rw [runNextAnimation_done _ _ _ (by simpa [hjk] using hc)]
    refine ⟨hjk, ⟨by simpa [hjk] using hc, by simpa [hjk] using ha, by simp [hjk], rfl, ?_⟩,
      rfl⟩
    show w.st.className = _
    rw [hcl, hjk, List.take_length]

lemma chain_fire_done (element : String) (animations : List (Option ClassToken))
    (interval : Nat) (w : EventLoop ChainState ChainTask)
    (hd : ChainDone element animations interval w) :
    fireNext (chainFire animations interval) none w = none := by
  simp [fireNext, hd.2.2.2.1, nextTimer]

lemma chain_run_done (element : String) (animations : List (Option ClassToken))
    (interval fuel : Nat) (w : EventLoop ChainState ChainTask)
    (hd : ChainDone element animations interval w) :
    runTimers (chainFire animations interval) fuel none w = w :=
  runTimers_no_timer _ _ _ _ hd.2.2.2.1

lemma chain_run_mid (element : String) (animations : List (Option ClassToken))
    (interval : Nat) :
    ∀ (n j fuel : Nat) (w : EventLoop ChainState ChainTask),
      animations.length - j = n → ChainMid element animations interval j w → n + 1 ≤ fuel →
      ChainDone element animations interval
        (runTimers (chainFire animations interval) fuel none w) := by
  intro n
  induction n with
  | zero =>
    intro j fuel w hn hm hfuel
    obtain ⟨f, rfl⟩ : ∃ f, fuel = f + 1 := ⟨fuel - 1, by omega⟩
    obtain ⟨w1, hfire, h | h⟩ := chain_fire_mid element animations interval j w hm
    · omega
    · simp only [runTimers, hfire]
      rw [chain_run_done element _ _ _ _ h.2.1]
      exact h.2.1
  | succ n ih =>
    intro j fuel w hn hm hfuel
    obtain ⟨f, rfl⟩ : ∃ f, fuel = f + 1 := ⟨fuel - 1, by omega⟩
    obtain ⟨w1, hfire, h | h⟩ := chain_fire_mid element animations interval j w hm
    · simp only [runTimers, hfire]
      exact ih (j + 1) f w1 (by omega) h.2 (by omega)
    · omega

lemma chain_reachable_state (element : String) (animations : List (Option ClassToken))
    (interval : Option Nat) (w : EventLoop ChainState ChainTask)
    (hreach : ChainReachable element animations interval w) :
    (∃ j, ChainMid element animations (interval.getD 1000) j w) ∨
      ChainDone element animations (interval.getD 1000) w := by
  induction hreach with
  | start =>
    rcases chainAnimations_state element animations interval with h | h
    · exact Or.inl ⟨1, h.2⟩
    · exact Or.inr h.2
  | fire w w1 _ hfire ih =>
    rcases ih with ⟨j, hm⟩ | hd
    · obtain ⟨w2, hfire2, h | h⟩ := chain_fire_mid element animations _ j w hm
      · rw [hfire2] at hfire
        cases hfire
        exact Or.inl ⟨j + 1, h.2⟩
      · rw [hfire2] at hfire
        cases hfire
        exact Or.inr h.2.1
    · rw [chain_fire_done element _ _ _ hd] at hfire
      cases hfire

/-- C4: a chain on `k` steps left to run executes exactly `k` steps, step `i`
at time `i * interval` and with the `i`-th entry of the list, in list order;
the class attribute of the element ends as the `k` visual changes applied in
that order make it; then the cursor is `k`, the clock stands at
`k * interval` and no timer is pending, so nothing further is applied. -/
theorem chainAnimations_applies_each_step_once (element : String)
    (animations : List (Option ClassToken)) (interval : Option Nat) (fuel : Nat)
    (hfuel : animations.length + 1 ≤ fuel) :
    (chainRun fuel element animations interval).st.applied =
        (List.range animations.length).map
          (fun i => { time := i * interval.getD 1000, index := i,
                      animation := (animations[i]?).join }) ∧
      (chainRun fuel element animations interval).st.applied.map StepRecord.animation =
        animations ∧
      (chainRun fuel element animations interval).st.applied.length = animations.length ∧
      (chainRun fuel element animations interval).st.className =
        animations.foldl applyAnimation element ∧
      (chainRun fuel element animations interval).st.currentIndex = animations.length ∧
      (chainRun fuel element animations interval).timers = [] ∧
      (chainRun fuel element animations interval).now =
        animations.length * interval.getD 1000 := by
  have hd : ChainDone element animations (interval.getD 1000)
      (chainRun fuel element animations interval) := by
    unfold chainRun
    rcases chainAnimations_state element animations interval with h | h
    · exact chain_run_mid element animations _ (animations.length - 1) 1 fuel _ rfl h.2
        (by omega)
    · rw [chain_run_done element _ _ _ _ h.2]; exact h.2
  obtain ⟨hc, ha, hn, ht, hcl⟩ := hd
  refine ⟨ha, ?_, ?_, hcl, hc, ht, hn⟩
  · rw [ha]; exact chainRecords_animation animations _
  · rw [ha]; simp [chainRecords]

/-- The steps `['bounce', 'spin']` with interval 500: `bounce` is applied
once, at time 0, then `spin` once, at time 500; at time 1000 the chain has
finished, and the element carries `spin`. -/
theorem chainAnimations_applies_each_step_once_witness :
    (chainRun 3 "" [some bounce, some spin] (some 500)).st.applied =
        [{ time := 0, index := 0, animation := some bounce },
         { time := 500, index := 1, animation := some spin }] ∧
      (chainRun 3 "" [some bounce, some spin] (some 500)).st.className = "spin" ∧
      (chainRun 3 "" [some bounce, some spin] (some 500)).timers = [] ∧
      (chainRun 3 "" [some bounce, some spin] (some 500)).now = 1000 := by
  have h := chainAnimations_applies_each_step_once "" [some bounce, some spin] (some 500) 3
    (by decide)
  refine ⟨h.1, ?_, h.2.2.2.2.2.1, h.2.2.2.2.2.2⟩
  rw [h.2.2.2.1]
  decide

/-- C5: the state of a chain holds no timer handle and its only transition is
the firing of a timer.  In every state of a chain whose cursor is below `k`
exactly one timer, for `runNextAnimation`, is pending; it fires, executing the
step under the cursor; and with enough time every remaining step is executed,
in order, after which no timer is pending. -/
theorem chainAnimations_runs_to_the_end (element : String)
    (animations : List (Option ClassToken)) (interval : Option Nat)
    (w : EventLoop ChainState ChainTask)
    (hreach : ChainReachable element animations interval w)
    (hlt : w.st.currentIndex < animations.length) :
    (∃ id due, w.timers = [{ id := id, due := due, task := .runNextAnimation }]) ∧
    (∃ w1, fireNext (chainFire animations (interval.getD 1000)) none w = some w1 ∧
      ChainReachable element animations interval w1 ∧
      w1.st.currentIndex = w.st.currentIndex + 1 ∧
      w1.st.applied.map StepRecord.animation =
        w.st.applied.map StepRecord.animation ++ [(animations[w.st.currentIndex]?).join]) ∧
    (∀ fuel, animations.length - w.st.currentIndex + 1 ≤ fuel →
      (runTimers (chainFire animations (interval.getD 1000)) fuel none w).st.applied.map
          StepRecord.animation =
        w.st.applied.map StepRecord.animation ++ animations.drop w.st.currentIndex ∧
      (runTimers (chainFire animations (interval.getD 1000)) fuel none w).st.currentIndex =
        animations.length ∧
      (runTimers (chainFire animations (interval.getD 1000)) fuel none w).timers = []) := by
  rcases chain_reachable_state element animations interval w hreach with ⟨j, hm⟩ | hd
  · have hcj : w.st.currentIndex = j := hm.2.2.1
    have haj := hm.2.2.2.1
    refine ⟨?_, ?_, ?_⟩
    · obtain ⟨id, ht⟩ := hm.2.2.2.2.2.2
      exact ⟨id, _, ht⟩
    · obtain ⟨w1, hfire, h | h⟩ := chain_fire_mid element animations _ j w hm
      · refine ⟨w1, hfire, ChainReachable.fire w w1 hreach hfire, ?_, ?_⟩
        · rw [h.2.2.2.1, hcj]
        · rw [h.2.2.2.2.1, haj, hcj, chainRecords_succ]
          simp
      · omega
    · intro fuel hfuel
      have hdone := chain_run_mid element animations (interval.getD 1000)
        (animations.length - j) j fuel w rfl hm (by omega)
      obtain ⟨hc, ha, -, ht, -⟩ := hdone
      refine ⟨?_, hc, ht⟩
      rw [ha, haj, hcj]
      exact chainRecords_drop animations _ j hm.2.1
  · have := hd.1
    omega

/-- The chain on `['bounce', 'spin']` right after the call: one timer is
pending, and it leads to the execution of `spin`. -/
theorem chainAnimations_runs_to_the_end_witness :
    (∃ id due, (chainAnimations "" [some bounce, some spin] (some 500)).timers =
      [{ id := id, due := due, task := .runNextAnimation }]) ∧
    (runTimers (chainFire [some bounce, some spin] 500) 3 none
        (chainAnimations "" [some bounce, some spin] (some 500))).st.applied.map
          StepRecord.animation = [some bounce, some spin] := by
  have h := chainAnimations_runs_to_the_end "" [some bounce, some spin] (some 500)
    (chainAnimations "" [some bounce, some spin] (some 500)) ChainReachable.start (by decide)
  exact ⟨h.1, (h.2.2 3 (by decide)).1⟩

/-- C7: while a chain on `k` steps runs, for any `k`, the cursor starts at 0
and stays at most `k`; a timer either executes the step under the cursor and
moves the cursor up by one, or changes neither; and every position of the
list that was read is below `k`. -/
theorem chainAnimations_cursor_in_range (element : String)
    (animations : List (Option ClassToken)) (interval : Option Nat)
    (w : EventLoop ChainState ChainTask)
    (hreach : ChainReachable element animations interval w) :
    (chainStart element).st.currentIndex = 0 ∧
    (chainAnimations element animations interval).st.currentIndex =
      (if animations.length = 0 then 0 else 1) ∧
    w.st.currentIndex ≤ animations.length ∧
    (∀ r ∈ w.st.applied, r.index < animations.length) ∧
    w.st.applied.length = w.st.currentIndex ∧
    (∀ w1, fireNext (chainFire animations (interval.getD 1000)) none w = some w1 →
      (w1.st.currentIndex = w.st.currentIndex + 1 ∧
        ∃ r, w1.st.applied = w.st.applied ++ [r] ∧ r.index = w.st.currentIndex) ∨
      (w1.st.currentIndex = w.st.currentIndex ∧ w1.st.applied = w.st.applied)) := by
  refine ⟨rfl, ?_, ?_⟩
  · rcases chainAnimations_state element animations interval with h | h
    · rw [h.2.2.2.1, if_neg (by omega)]
    · rw [h.2.1, if_pos h.1, h.1]
  · rcases chain_reachable_state element animations interval w hreach with ⟨j, hm⟩ | hd
    · obtain ⟨h1, hk, hc, ha, hn, hcl, id, ht⟩ := hm
      refine ⟨by omega, ?_, ?_, ?_⟩
      · intro r hr
        rw [ha] at hr
        have := chainRecords_index_lt animations _ j r hr
        omega
      · rw [ha, hc]; simp [chainRecords]
      · intro w1 hfire
        obtain ⟨w2, hfire2, h | h⟩ :=
          chain_fire_mid element animations _ j w ⟨h1, hk, hc, ha, hn, hcl, id, ht⟩
        · rw [hfire2] at hfire
          cases hfire
          left
          refine ⟨by rw [h.2.2.2.1, hc],
            { time := j * interval.getD 1000, index := j,
              animation := (animations[j]?).join }, ?_, ?_⟩
          · rw [h.2.2.2.2.1, ha, chainRecords_succ]
          · exact hc.symm
        · rw [hfire2] at hfire
          cases hfire
          right
          exact ⟨by rw [h.2.2], by rw [h.2.2]⟩
    · obtain ⟨hc, ha, hn, ht, hcl⟩ := hd
      refine ⟨by omega, ?_, ?_, ?_⟩
      · intro r hr
        rw [ha] at hr
        exact chainRecords_index_lt animations _ _ r hr
      · rw [ha, hc]; simp [chainRecords]
      · intro w1 hfire
        rw [chain_fire_done element _ _ _ ⟨hc, ha, hn, ht, hcl⟩] at hfire
        cases hfire

/-- The chain on `['bounce', 'spin']` right after the call: the cursor is 1,
at most 2, and the one position read is position 0. -/
theorem chainAnimations_cursor_in_range_witness :
    (chainAnimations "" [some bounce, some spin] (some 500)).st.currentIndex ≤ 2 ∧
    (∀ r ∈ (chainAnimations "" [some bounce, some spin] (some 500)).st.applied,
      r.index < 2) ∧
    (chainAnimations "" [] (some 500)).st.currentIndex ≤ 0 := by
  have h := chainAnimations_cursor_in_range "" [some bounce, some spin] (some 500)
    (chainAnimations "" [some bounce, some spin] (some 500)) ChainReachable.start
  have h0 := chainAnimations_cursor_in_range "" [] (some 500)
    (chainAnimations "" [] (some 500)) ChainReachable.start
  exact ⟨h.2.2.1, h.2.2.2.1, h0.2.2.1⟩

/-! ## Theorems: createParticleEffect -/

lemma nextTimer_mem {τ : Type} : ∀ (ts : List (Timer τ)) (u : Timer τ),
    nextTimer ts = some u → u ∈ ts := by
  intro ts
  induction ts with
  | nil => intro u h; simp [nextTimer] at h
  | cons t ts ih =>
    intro u h
    simp only [nextTimer] at h
    rcases hn : nextTimer ts with _ | v
    · rw [hn] at h; simp at h; simp [h]
    · rw [hn] at h
      simp only at h
      split at h
      · cases h; exact List.mem_cons_of_mem _ (ih u hn)
      · cases h; simp

lemma nextTimer_eq_none {τ : Type} (ts : List (Timer τ)) (h : nextTimer ts = none) :
    ts = [] := by
  cases ts with
  | nil => rfl
  | cons t ts =>
    simp only [nextTimer] at h
    rcases hn : nextTimer ts with _ | v
    · rw [hn] at h; cases h
    · rw [hn] at h
      simp only at h
      split at h <;> cases h

lemma nextTimer_min {τ : Type} : ∀ (ts : List (Timer τ)) (t : Timer τ),
    nextTimer ts = some t → ∀ u ∈ ts, t.due ≤ u.due := by
  intro ts
  induction ts with
  | nil => intro t h; simp [nextTimer] at h
  | cons a ts ih =>
    intro t h u hu
    simp only [nextTimer] at h
    rcases hn : nextTimer ts with _ | v
    · rw [hn] at h
      have hnil := nextTimer_eq_none ts hn
      subst hnil
      simp at h hu
      subst h; subst hu
      exact le_refl _
    · rw [hn] at h
      simp only at h
      have hv := ih v hn
      rcases List.mem_cons.mp hu with hu | hu
      · subst hu
        split at h
        · cases h; omega
        · cases h; exact le_refl _
      · have := hv u hu
        split at h
        · cases h; exact this
        · cases h; omega

lemma particleFire_eq (task : ParticleTask) (w : EventLoop PageState ParticleTask) :
    particleFire task w =
      { w with st :=
        { w.st with
          head := (w.st.head.filter (fun m => m.id != (taskNodes task).1.id)).filter
            (fun m => m.id != (taskNodes task).2.id),
          body := (w.st.body.filter (fun m => m.id != (taskNodes task).1.id)).filter
            (fun m => m.id != (taskNodes task).2.id),
          cleaned := w.st.cleaned ++ [(w.now, (taskNodes task).1, (taskNodes task).2)] } } := by
  cases task
  rfl

lemma timer_eq_of_id_eq (ts : List (Timer ParticleTask)) (hnd : (ts.map Timer.id).Nodup)
    (u t : Timer ParticleTask) (hu : u ∈ ts) (ht : t ∈ ts) (h : u.id = t.id) : u = t :=
  List.inj_on_of_nodup_map hnd hu ht h

lemma perm_cons_filter_id (t : Timer ParticleTask) :
    ∀ ts : List (Timer ParticleTask), (ts.map Timer.id).Nodup → t ∈ ts →
      (t :: ts.filter (fun u => u.id != t.id)).Perm ts := by
  intro ts
  induction ts with
  | nil => intro _ h; cases h
  | cons a ts ih =>
    intro hnd hmem
    rw [List.map_cons, List.nodup_cons] at hnd
    by_cases hat : a = t
    · subst hat
      have hkeep : ts.filter (fun u => u.id != a.id) = ts := by
        rw [List.filter_eq_self]
        intro u hu
        have : u.id ≠ a.id := fun h => hnd.1 (h ▸ List.mem_map_of_mem Timer.id hu)
        simpa using this
      rw [List.filter_cons]
      simp only [bne_self_eq_false, Bool.false_eq_true, if_false, hkeep]
      exact List.Perm.refl _
    · have htm : t ∈ ts := by
        rcases List.mem_cons.mp hmem with h | h
        · exact absurd h.symm hat
        · exact h
      have hne : a.id ≠ t.id := fun h => hnd.1 (h ▸ List.mem_map_of_mem Timer.id htm)
      rw [List.filter_cons]
      have hb : (a.id != t.id) = true := by simpa using hne
      simp only [hb, if_true]
      exact (List.Perm.swap a t _).trans ((ih hnd.2 htm).cons a)

lemma filter_not_due_of_none_due (limit : Nat) (ts : List (Timer ParticleTask))
    (h : ∀ u ∈ ts, timerDue limit u = false) :
    ts.filter (fun t => !timerDue limit t) = ts ∧ ts.filter (timerDue limit) = [] := by
  constructor
  · rw [List.filter_eq_self]
    intro u hu
    simp [h u hu]
  · rw [List.filter_eq_nil_iff]
    intro u hu
    simp [h u hu]

lemma survives_of_none_due (limit : Nat) (ts : List (Timer ParticleTask)) (m : Node)
    (h : ∀ u ∈ ts, timerDue limit u = false) : survives limit ts m = true := by
  simp only [survives, List.all_eq_true]
  intro u hu
  simp [h u hu]

/-- Letting the clock reach `limit`: exactly the timers due by then fire, each
once; the others stay; a node stays in place if and only if no due timer
removes it. -/
lemma particle_drain (limit : Nat) :
    ∀ (fuel : Nat) (w : EventLoop PageState ParticleTask),
      (w.timers.map Timer.id).Nodup → (w.timers.filter (timerDue limit)).length ≤ fuel →
      (runTimers particleFire fuel (some limit) w).timers =
          w.timers.filter (fun t => !timerDue limit t) ∧
        (runTimers particleFire fuel (some limit) w).st.body =
          w.st.body.filter (survives limit w.timers) ∧
        (runTimers particleFire fuel (some limit) w).st.head =
          w.st.head.filter (survives limit w.timers) ∧
        ((runTimers particleFire fuel (some limit) w).st.cleaned.map Prod.snd).Perm
          (w.st.cleaned.map Prod.snd ++
            (w.timers.filter (timerDue limit)).map (fun t => taskNodes t.task)) ∧
        (runTimers particleFire fuel (some limit) w).now ≤ max w.now limit := by
  intro fuel
  induction fuel with
  | zero =>
    intro w _ hlen
    have hnone : ∀ u ∈ w.timers, timerDue limit u = false := by
      intro u hu
      by_contra hc
      have : u ∈ w.timers.filter (timerDue limit) := by
        rw [List.mem_filter]; exact ⟨hu, by simpa using hc⟩
      have := List.length_pos_of_mem this
      omega
    obtain ⟨h1, h2⟩ := filter_not_due_of_none_due limit w.timers hnone
    refine ⟨h1.symm, ?_, ?_, ?_, le_max_left _ _⟩
    · show w.st.body = _
      rw [List.filter_eq_self.mpr (fun m _ => survives_of_none_due limit w.timers m hnone)]
    · show w.st.head = _
      rw [List.filter_eq_self.mpr (fun m _ => survives_of_none_due limit w.timers m hnone)]
    · show (w.st.cleaned.map Prod.snd).Perm _
      rw [h2]; simp
  | succ fuel ih =>
    intro w hnd hlen
    rcases hn : nextTimer w.timers with _ | t
    · have hnil := nextTimer_eq_none w.timers hn
      have hrun : runTimers particleFire (fuel + 1) (some limit) w = w :=
        runTimers_no_timer _ _ _ _ hnil
      rw [hrun, hnil]
      refine ⟨rfl, ?_, ?_, by simp, le_max_left _ _⟩
      · rw [List.filter_eq_self.mpr (fun m _ => by simp [survives])]
      · rw [List.filter_eq_self.mpr (fun m _ => by simp [survives])]
    · have htmem := nextTimer_mem w.timers t hn
      have htmin := nextTimer_min w.timers t hn
      by_cases hdue : t.due ≤ limit
      · -- the next timer fires
        have hfire : fireNext particleFire (some limit) w =
            some (particleFire t.task
              { w with now := max w.now t.due,
                       timers := w.timers.filter (fun u => u.id != t.id) }) := by
          simp [fireNext, hn, withinLimit, hdue]
        have hperm := perm_cons_filter_id t w.timers hnd htmem
        have htdue : timerDue limit t = true := by simpa [timerDue] using hdue
        -- the due timers among the remaining ones
        have hperm_due : (t :: (w.timers.filter (fun u => u.id != t.id)).filter
            (timerDue limit)).Perm (w.timers.filter (timerDue limit)) := by
          have := hperm.filter (timerDue limit)
          rwa [List.filter_cons, if_pos htdue] at this
        have hlen' : ((w.timers.filter (fun u => u.id != t.id)).filter
            (timerDue limit)).length ≤ fuel := by
          have := hperm_due.length_eq
          simp only [List.length_cons] at this
          omega
        have hnd' : ((w.timers.filter (fun u => u.id != t.id)).map Timer.id).Nodup :=
          (hnd.sublist ((List.filter_sublist _).map Timer.id))
        obtain ⟨r1, r2, r3, r4, r5⟩ := ih
          (particleFire t.task
            { w with now := max w.now t.due,
                     timers := w.timers.filter (fun u => u.id != t.id) })
          (by rw [particleFire_eq]; exact hnd')
          (by rw [particleFire_eq]; exact hlen')
        simp only [runTimers, hfire]
        rw [particleFire_eq] at r1 r2 r3 r4 r5
        have hsurv : ∀ m : Node,
            (((m.id != (taskNodes t.task).1.id) && (m.id != (taskNodes t.task).2.id)) &&
              survives limit (w.timers.filter (fun u => u.id != t.id)) m) =
            survives limit w.timers m := by
          intro m
          rw [Bool.eq_iff_iff]
          simp only [Bool.and_eq_true, survives, List.all_eq_true, List.mem_filter,
            Bool.or_eq_true, Bool.not_eq_true']
          constructor
          · rintro ⟨hsp, hall⟩ u hu
            by_cases hid : u.id = t.id
            · have := timer_eq_of_id_eq w.timers hnd u t hu htmem hid
              subst this
              right
              simpa [spares] using hsp
            · exact hall u ⟨hu, by simpa using hid⟩
          · intro hall
            refine ⟨?_, fun u hu => hall u hu.1⟩
            rcases hall t htmem with h | h
            · rw [htdue] at h; cases h
            · simpa [spares] using h
        refine ⟨?_, ?_, ?_, ?_, ?_⟩
        · rw [particleFire_eq, r1, List.filter_filter]
          apply List.filter_congr
          intro u hu
          have : (u.id != t.id) = true ∨ u = t := by
            by_cases hid : u.id = t.id
            · exact Or.inr (timer_eq_of_id_eq w.timers hnd u t hu htmem hid)
            · exact Or.inl (by simpa using hid)
          rcases this with h | h
          · simp [h]
          · subst h; simp [htdue]
        · rw [particleFire_eq, r2, List.filter_filter, List.filter_filter]
          apply List.filter_congr
          intro m _
          rw [← hsurv m]
          simp only [Bool.and_comm, Bool.and_assoc, Bool.and_left_comm]
        · rw [particleFire_eq, r3, List.filter_filter, List.filter_filter]
          apply List.filter_congr
          intro m _
          rw [← hsurv m]
          simp only [Bool.and_comm, Bool.and_assoc, Bool.and_left_comm]
        · rw [particleFire_eq]
          refine r4.trans ?_
          simp only [List.map_append, List.map_cons, List.map_nil, List.append_assoc,
            List.singleton_append]
          refine List.Perm.append_left _ ?_
          have := hperm_due.map (fun u => taskNodes u.task)
          simpa using this
        · rw [particleFire_eq]
          refine le_trans r5 ?_
          simp only [max_le_iff]
          refine ⟨⟨le_max_left _ _, le_trans hdue (le_max_right _ _)⟩, le_max_right _ _⟩
      · -- the earliest timer is not due: none is
        have hnone : ∀ u ∈ w.timers, timerDue limit u = false := by
          intro u hu
          have := htmin u hu
          simp only [timerDue, decide_eq_false_iff_not]
          omega
        have hrun : runTimers particleFire (fuel + 1) (some limit) w = w := by
          simp [runTimers, fireNext, hn, withinLimit, hdue]
        obtain ⟨h1, h2⟩ := filter_not_due_of_none_due limit w.timers hnone
        rw [hrun]
        refine ⟨h1.symm, ?_, ?_, ?_, le_max_left _ _⟩
        · rw [List.filter_eq_self.mpr
            (fun m _ => survives_of_none_due limit w.timers m hnone)]
        · rw [List.filter_eq_self.mpr
            (fun m _ => survives_of_none_due limit w.timers m hnone)]
        · rw [h2]; simp

lemma createParticleEffect_state (x y : Int) (w0 : EventLoop PageState ParticleTask) :
    ∀ n : Nat,
      ((List.range n).foldl (particleStep x y) w0).timers =
          w0.timers ++ (List.range n).map (fun i => jobTimer (w0.now + 1000)
            (particleJob w0 x y i)) ∧
        ((List.range n).foldl (particleStep x y) w0).st.body =
          w0.st.body ++ (List.range n).map (fun i => (particleJob w0 x y i).particle) ∧
        ((List.range n).foldl (particleStep x y) w0).st.head =
          w0.st.head ++ (List.range n).map (fun i => (particleJob w0 x y i).styleSheet) ∧
        ((List.range n).foldl (particleStep x y) w0).st.cleaned = w0.st.cleaned ∧
        ((List.range n).foldl (particleStep x y) w0).st.nextNode = w0.st.nextNode + 2 * n ∧
        ((List.range n).foldl (particleStep x y) w0).nextId = w0.nextId + n ∧
        ((List.range n).foldl (particleStep x y) w0).now = w0.now := by
  intro n
  induction n with
  | zero => simp
  | succ n ih =>
    obtain ⟨h1, h2, h3, h4, h5, h6, h7⟩ := ih
    rw [List.range_succ, List.foldl_append, List.foldl_cons, List.foldl_nil]
    refine ⟨?_, ?_, ?_, ?_, ?_, ?_, ?_⟩
    · simp [particleStep, EventLoop.setTimeout, h1, h5, h6, h7, jobTimer, particleJob]
    · simp [particleStep, EventLoop.setTimeout, h2, h5, particleJob]
    · simp [particleStep, EventLoop.setTimeout, h3, h5, particleJob]
    · simp [particleStep, EventLoop.setTimeout, h4]
    · simp [particleStep, EventLoop.setTimeout, h5]; ring
    · simp [particleStep, EventLoop.setTimeout, h6]; ring
    · simp [particleStep, EventLoop.setTimeout, h7]

lemma pageOk_spawn (x y : Int) (n : Nat) (w : EventLoop PageState ParticleTask)
    (hok : PageOk w) : PageOk ((List.range n).foldl (particleStep x y) w) := by
  obtain ⟨h1, h2, h3, h4, h5, h6, h7⟩ := createParticleEffect_state x y w n
  obtain ⟨o1, o2, o3, o4, o5⟩ := hok
  refine ⟨?_, ?_, ?_, ?_, ?_⟩
  · intro m hm
    rw [h2, h3] at hm
    rw [h5]
    simp only [List.mem_append, List.mem_map, List.mem_range] at hm
    rcases hm with (hm | ⟨i, hi, rfl⟩) | (hm | ⟨i, hi, rfl⟩)
    · have := o1 m (by simp [hm]); omega
    · simp only [particleJob]; omega
    · have := o1 m (by simp [hm]); omega
    · simp only [particleJob]; omega
  · intro t ht
    rw [h1] at ht
    rw [h6]
    simp only [List.mem_append, List.mem_map, List.mem_range] at ht
    rcases ht with ht | ⟨i, hi, rfl⟩
    · have := o2 t ht; omega
    · simp only [jobTimer, particleJob]; omega
  · rw [h1, List.map_append, List.nodup_append]
    refine ⟨o3, ?_, ?_⟩
    · rw [List.map_map]
      refine (List.nodup_range n).map ?_
      intro a b hab
      simp only [Function.comp, jobTimer, particleJob] at hab
      omega
    · intro a ha hb
      obtain ⟨t, ht, rfl⟩ := List.mem_map.mp ha
      obtain ⟨u, hu, hut⟩ := List.mem_map.mp hb
      obtain ⟨i, _, rfl⟩ := List.mem_map.mp hu
      have := o2 t ht
      simp only [jobTimer, particleJob] at hut
      omega
  · intro t ht
    rw [h1] at ht
    rw [h5]
    simp only [List.mem_append, List.mem_map, List.mem_range] at ht
    rcases ht with ht | ⟨i, hi, rfl⟩
    · have := o4 t ht; omega
    · simp only [jobTimer, particleJob, taskNodes]; omega
  · intro c hc
    rw [h4] at hc
    rw [h5]
    have := o5 c hc
    omega

lemma pageOk_fire (limit : Option Nat) (w w1 : EventLoop PageState ParticleTask)
    (hok : PageOk w) (hfire : fireNext particleFire limit w = some w1) : PageOk w1 := by
  obtain ⟨o1, o2, o3, o4, o5⟩ := hok
  simp only [fireNext] at hfire
  rcases hn : nextTimer w.timers with _ | t
  · rw [hn] at hfire; cases hfire
  · rw [hn] at hfire
    simp only at hfire
    split at hfire
    · cases hfire
      have htmem := nextTimer_mem w.timers t hn
      rw [particleFire_eq]
      refine ⟨?_, ?_, ?_, ?_, ?_⟩
      · intro m hm
        simp only [List.mem_append, List.mem_filter] at hm
        rcases hm with hm | hm
        · exact o1 m (by simp [hm.1.1])
        · exact o1 m (by simp [hm.1.1])
      · intro u hu
        exact o2 u (List.mem_filter.mp hu).1
      · exact o3.sublist ((List.filter_sublist _).map Timer.id)
      · intro u hu
        exact o4 u (List.mem_filter.mp hu).1
      · intro c hc
        simp only [List.mem_append, List.mem_singleton] at hc
        rcases hc with hc | hc
        · exact o5 c hc
        · subst hc
          exact o4 t htmem
    · cases hfire

lemma pageOk_of_reachable (w : EventLoop PageState ParticleTask) (h : PageReachable w) :
    PageOk w := by
  induction h with
  | load now nextId nextNode head body h =>
    exact ⟨h, by simp, by simp, by simp, by simp⟩
  | spawn w x y count _ ih => exact pageOk_spawn x y (count.getD 5) w ih
  | fire w w1 limit _ hfire ih => exact pageOk_fire limit w w1 ih hfire
  | wait w t _ ih => exact ih

lemma survives_append (limit : Nat) (ts us : List (Timer ParticleTask)) (m : Node) :
    survives limit (ts ++ us) m = (survives limit ts m && survives limit us m) := by
  simp [survives, List.all_append]

/-- C6: `createParticleEffect(x, y, n)`, called in any state of the page, also
while the clean-ups of earlier calls are pending, appends `n` particle nodes
to the body and `n` style nodes to the head and registers `n` clean-up
timers, one per particle.  When 1000 ms have passed, each of these clean-ups
has run exactly once (its pair of nodes occurs once in the record of
clean-ups); none of the `2n` nodes is in the body or the head; none of the `n`
timers is pending; body and head are what they would be had the call not been
made; and the `2n` nodes are distinct, so none was removed twice. -/
theorem createParticleEffect_cleans_up_once (x y : Int) (n fuel : Nat)
    (w0 : EventLoop PageState ParticleTask) (hreach : PageReachable w0)
    (hfuel : w0.timers.length + n ≤ fuel) :
    ((createParticleEffect x y (some n) w0).st.body =
        w0.st.body ++ (List.range n).map (fun i => (particleJob w0 x y i).particle) ∧
      (createParticleEffect x y (some n) w0).st.head =
        w0.st.head ++ (List.range n).map (fun i => (particleJob w0 x y i).styleSheet) ∧
      (createParticleEffect x y (some n) w0).timers =
        w0.timers ++ (List.range n).map (fun i =>
          { id := w0.nextId + i, due := w0.now + 1000,
            task := .cleanup (particleJob w0 x y i).particle
              (particleJob w0 x y i).styleSheet })) ∧
    (∀ i < n,
      ((advanceTo particleFire fuel (w0.now + 1000)
        (createParticleEffect x y (some n) w0)).st.cleaned.map Prod.snd).countP
          (fun c => decide (c = ((particleJob w0 x y i).particle,
            (particleJob w0 x y i).styleSheet))) = 1 ∧
      (∀ m ∈ (advanceTo particleFire fuel (w0.now + 1000)
          (createParticleEffect x y (some n) w0)).st.body ++
        (advanceTo particleFire fuel (w0.now + 1000)
          (createParticleEffect x y (some n) w0)).st.head,
        m.id ≠ (particleJob w0 x y i).particle.id ∧
          m.id ≠ (particleJob w0 x y i).styleSheet.id) ∧
      (∀ t ∈ (advanceTo particleFire fuel (w0.now + 1000)
          (createParticleEffect x y (some n) w0)).timers, t.id ≠ w0.nextId + i)) ∧
    ((advanceTo particleFire fuel (w0.now + 1000)
        (createParticleEffect x y (some n) w0)).st.body =
        (advanceTo particleFire fuel (w0.now + 1000) w0).st.body ∧
      (advanceTo particleFire fuel (w0.now + 1000)
        (createParticleEffect x y (some n) w0)).st.head =
        (advanceTo particleFire fuel (w0.now + 1000) w0).st.head ∧
      (advanceTo particleFire fuel (w0.now + 1000)
        (createParticleEffect x y (some n) w0)).timers =
        (advanceTo particleFire fuel (w0.now + 1000) w0).timers) ∧
    ((List.range n).map (fun i => (particleJob w0 x y i).particle.id) ++
      (List.range n).map (fun i => (particleJob w0 x y i).styleSheet.id)).Nodup := by
  have hok0 := pageOk_of_reachable w0 hreach
  have hok1 : PageOk (createParticleEffect x y (some n) w0) := pageOk_spawn x y n w0 hok0
  obtain ⟨o1, o2, o3, o4, o5⟩ := hok0
  obtain ⟨h1, h2, h3, h4, h5, h6, h7⟩ := createParticleEffect_state x y w0 n
  have hcreate : createParticleEffect x y (some n) w0 =
      (List.range n).foldl (particleStep x y) w0 := rfl
  set L := w0.now + 1000 with hL
  set news := (List.range n).map (fun i => jobTimer L (particleJob w0 x y i)) with hnews
  -- every new timer is due at `L`
  have hnewdue : ∀ u ∈ news, timerDue L u = true := by
    intro u hu
    obtain ⟨i, _, rfl⟩ := List.mem_map.mp hu
    simp [timerDue, jobTimer]
  have hfilter_new : news.filter (timerDue L) = news :=
    List.filter_eq_self.mpr hnewdue
  have hlen1 : ((createParticleEffect x y (some n) w0).timers.filter (timerDue L)).length
      ≤ fuel := by
    rw [hcreate, h1, List.filter_append, List.length_append]
    have a := List.length_filter_le (timerDue L) w0.timers
    have b := List.length_filter_le (timerDue L) news
    have c : news.length = n := by simp [hnews]
    omega
  have hlen0 : (w0.timers.filter (timerDue L)).length ≤ fuel := by
    have a := List.length_filter_le (timerDue L) w0.timers
    omega
  obtain ⟨r1, r2, r3, r4, -⟩ := particle_drain L fuel _ hok1.2.2.1 hlen1
  obtain ⟨s1, s2, s3, -, -⟩ := particle_drain L fuel w0 o3 hlen0
  rw [hcreate] at r1 r2 r3 r4
  rw [h1] at r1 r2 r3 r4
  rw [h2] at r2
  rw [h3] at r3
  rw [h4] at r4
  -- a node of the page before the call is spared by every new timer
  have hold_spared : ∀ m, m.id < w0.st.nextNode → survives L news m = true := by
    intro m hm
    simp only [survives, List.all_eq_true, Bool.or_eq_true]
    intro u hu
    obtain ⟨i, _, rfl⟩ := List.mem_map.mp hu
    right
    simp only [spares, jobTimer, taskNodes, particleJob, Bool.and_eq_true, bne_iff_ne]
    constructor <;> omega
  -- a new node is removed by its own timer
  have hnew_removed : ∀ i < n, ∀ m : Node,
      (m.id = (particleJob w0 x y i).particle.id ∨
        m.id = (particleJob w0 x y i).styleSheet.id) →
      survives L (w0.timers ++ news) m = false := by
    intro i hi m hm
    rw [survives_append]
    have : survives L news m = false := by
      rw [Bool.eq_false_iff]
      intro hs
      simp only [survives, List.all_eq_true, Bool.or_eq_true] at hs
      have hmem : jobTimer L (particleJob w0 x y i) ∈ news :=
        List.mem_map.mpr ⟨i, List.mem_range.mpr hi, rfl⟩
      rcases hs _ hmem with h | h
      · simp [timerDue, jobTimer] at h
      · simp only [spares, jobTimer, taskNodes, Bool.and_eq_true, bne_iff_ne] at h
        rcases hm with hm | hm
        · exact h.1 hm
        · exact h.2 hm
    simp [this]
  have hbody : (advanceTo particleFire fuel L (createParticleEffect x y (some n) w0)).st.body
      = (advanceTo particleFire fuel L w0).st.body := by
    show (runTimers particleFire fuel (some L) _).st.body =
      (runTimers particleFire fuel (some L) w0).st.body
    rw [hcreate, r2, s2, List.filter_append]
    have e1 : (List.map (fun i => (particleJob w0 x y i).particle) (List.range n)).filter
        (survives L (w0.timers ++ news)) = [] := by
      rw [List.filter_eq_nil_iff]
      intro m hm
      obtain ⟨i, hi, rfl⟩ := List.mem_map.mp hm
      rw [hnew_removed i (List.mem_range.mp hi) _ (Or.inl rfl)]
      simp
    rw [e1, List.append_nil]
    apply List.filter_congr
    intro m hm
    rw [survives_append, hold_spared m (o1 m (by simp [hm])), Bool.and_true]
  have hhead : (advanceTo particleFire fuel L (createParticleEffect x y (some n) w0)).st.head
      = (advanceTo particleFire fuel L w0).st.head := by
    show (runTimers particleFire fuel (some L) _).st.head =
      (runTimers particleFire fuel (some L) w0).st.head
    rw [hcreate, r3, s3, List.filter_append]
    have e1 : (List.map (fun i => (particleJob w0 x y i).styleSheet) (List.range n)).filter
        (survives L (w0.timers ++ news)) = [] := by
      rw [List.filter_eq_nil_iff]
      intro m hm
      obtain ⟨i, hi, rfl⟩ := List.mem_map.mp hm
      rw [hnew_removed i (List.mem_range.mp hi) _ (Or.inr rfl)]
      simp
    rw [e1, List.append_nil]
    apply List.filter_congr
    intro m hm
    rw [survives_append, hold_spared m (o1 m (by simp [hm])), Bool.and_true]
  have htimers : (advanceTo particleFire fuel L (createParticleEffect x y (some n) w0)).timers
      = (advanceTo particleFire fuel L w0).timers := by
    show (runTimers particleFire fuel (some L) _).timers =
      (runTimers particleFire fuel (some L) w0).timers
    rw [hcreate, r1, s1, List.filter_append]
    have e1 : news.filter (fun t => !timerDue L t) = [] := by
      rw [List.filter_eq_nil_iff]
      intro u hu
      simp [hnewdue u hu]
    rw [e1, List.append_nil]
  refine ⟨⟨by rw [hcreate, h2], by rw [hcreate, h3], by rw [hcreate, h1]; rfl⟩, ?_,
    ⟨hbody, hhead, htimers⟩, ?_⟩
  · intro i hi
    refine ⟨?_, ?_, ?_⟩
    · -- the pair occurs once in the record
      have hcount := r4.countP_eq
        (fun c => decide (c = ((particleJob w0 x y i).particle,
          (particleJob w0 x y i).styleSheet)))
      show ((runTimers particleFire fuel (some L)
          ((List.range n).foldl (particleStep x y) w0)).st.cleaned.map Prod.snd).countP
            (fun c => decide (c = ((particleJob w0 x y i).particle,
              (particleJob w0 x y i).styleSheet))) = 1
      rw [hcount, List.countP_append, List.filter_append, List.map_append,
        List.countP_append, hfilter_new]
      have c1 : (w0.st.cleaned.map Prod.snd).countP
          (fun c => decide (c = ((particleJob w0 x y i).particle,
            (particleJob w0 x y i).styleSheet))) = 0 := by
        rw [List.countP_eq_zero]
        intro c hmem hceq
        obtain ⟨d, hd, hdeq⟩ := List.mem_map.mp hmem
        have := (o5 d hd).1
        rw [hdeq, of_decide_eq_true hceq] at this
        simp only [particleJob] at this
        omega
      have c2 : ((w0.timers.filter (timerDue L)).map (fun t => taskNodes t.task)).countP
          (fun c => decide (c = ((particleJob w0 x y i).particle,
            (particleJob w0 x y i).styleSheet))) = 0 := by
        rw [List.countP_eq_zero]
        intro c hmem hceq
        obtain ⟨t, ht, hteq⟩ := List.mem_map.mp hmem
        have := (o4 t (List.mem_filter.mp ht).1).1
        rw [hteq, of_decide_eq_true hceq] at this
        simp only [particleJob] at this
        omega
      have c3 : (news.map (fun t => taskNodes t.task)).countP
          (fun c => decide (c = ((particleJob w0 x y i).particle,
            (particleJob w0 x y i).styleSheet))) = 1 := by
        have hnd : (news.map (fun t => taskNodes t.task)).Nodup := by
          rw [hnews, List.map_map]
          refine (List.nodup_range n).map ?_
          intro a b hab
          simp only [Function.comp, jobTimer, taskNodes, particleJob, Prod.mk.injEq,
            Node.mk.injEq] at hab
          omega
        have hmem : ((particleJob w0 x y i).particle, (particleJob w0 x y i).styleSheet) ∈
            news.map (fun t => taskNodes t.task) := by
          rw [hnews, List.map_map]
          exact List.mem_map.mpr ⟨i, List.mem_range.mpr hi, rfl⟩
        exact List.count_eq_one_of_mem hnd hmem
      rw [c1, c2, c3]
    · intro m hm
      rw [hbody, hhead] at hm
      have hm' : m ∈ w0.st.body ++ w0.st.head := by
        have hb : (advanceTo particleFire fuel L w0).st.body =
            w0.st.body.filter (survives L w0.timers) := s2
        have hh : (advanceTo particleFire fuel L w0).st.head =
            w0.st.head.filter (survives L w0.timers) := s3
        rw [hb, hh] at hm
        simp only [List.mem_append, List.mem_filter] at hm ⊢
        rcases hm with hm | hm
        · exact Or.inl hm.1
        · exact Or.inr hm.1
      have := o1 m hm'
      simp only [particleJob]
      constructor <;> omega
    · intro t ht
      rw [htimers] at ht
      have hs : (advanceTo particleFire fuel L w0).timers =
          w0.timers.filter (fun t => !timerDue L t) := s1
      rw [hs] at ht
      have := o2 t (List.mem_filter.mp ht).1
      omega
  · rw [List.nodup_append]
    refine ⟨?_, ?_, ?_⟩
    · refine (List.nodup_range n).map ?_
      intro a b hab
      simp only [particleJob] at hab
      omega
    · refine (List.nodup_range n).map ?_
      intro a b hab
      simp only [particleJob] at hab
      omega
    · intro a ha hb
      obtain ⟨i, _, rfl⟩ := List.mem_map.mp ha
      obtain ⟨k, _, hk⟩ := List.mem_map.mp hb
      simp only [particleJob] at hk
      omega

lemma busyPage_reachable : PageReachable busyPage :=
  PageReachable.wait _ 500
    (PageReachable.spawn _ 1 2 (some 2) (PageReachable.load 0 1 0 [] [] (by simp)))

/-- A second call while the first is pending: on the page where two particles
made at time 0 wait for their clean-up, three more are made at time 500.  At
time 1500 each of the three clean-ups has run once, none of the six new nodes
is in the document, none of the three timers is pending, and body and head are
what they would be without the second call: empty. -/
theorem createParticleEffect_cleans_up_once_witness :
    busyPage.timers.length = 2 ∧
    (∀ i < 3,
      ((advanceTo particleFire 5 (busyPage.now + 1000)
        (createParticleEffect 10 20 (some 3) busyPage)).st.cleaned.map Prod.snd).countP
          (fun c => decide (c = ((particleJob busyPage 10 20 i).particle,
            (particleJob busyPage 10 20 i).styleSheet))) = 1 ∧
      (∀ m ∈ (advanceTo particleFire 5 (busyPage.now + 1000)
          (createParticleEffect 10 20 (some 3) busyPage)).st.body ++
        (advanceTo particleFire 5 (busyPage.now + 1000)
          (createParticleEffect 10 20 (some 3) busyPage)).st.head,
        m.id ≠ (particleJob busyPage 10 20 i).particle.id ∧
          m.id ≠ (particleJob busyPage 10 20 i).styleSheet.id) ∧
      (∀ t ∈ (advanceTo particleFire 5 (busyPage.now + 1000)
          (createParticleEffect 10 20 (some 3) busyPage)).timers,
        t.id ≠ busyPage.nextId + i)) ∧
    (advanceTo particleFire 5 (busyPage.now + 1000)
        (createParticleEffect 10 20 (some 3) busyPage)).st.body = [] ∧
    (advanceTo particleFire 5 (busyPage.now + 1000)
        (createParticleEffect 10 20 (some 3) busyPage)).st.head = [] := by
  have h := createParticleEffect_cleans_up_once 10 20 3 5 busyPage busyPage_reachable
    (by decide)
  refine ⟨by decide, h.2.1, ?_, ?_⟩
  · rw [h.2.2.1.1]; decide
  · rw [h.2.2.1.2.1]; decide

/-! ## Theorems: animateBox -/

/-- C10 fails on the code: `animateBox('bounce')` at time 0 and
`animateBox('spin')` at time 500, on the box showing `Animate Me!`.  The
second call reads `BOUNCE!` as the text to restore, and its timer, the last to
fire, writes it back: when all timers have fired the box shows `BOUNCE!`.
The animation classes are gone.  When the second call comes 1000 ms after the
first, the text is restored. -/
theorem animateBox_overlap_keeps_stale_text :
    (animateBoxRun 4 "Animate Me!" [(0, bounce), (500, spin)]).st.textContent = "BOUNCE!" ∧
    (animateBoxRun 4 "Animate Me!" [(0, bounce), (500, spin)]).st.className =
      "animation-box" ∧
    (animateBoxRun 4 "Animate Me!" [(0, bounce), (500, spin)]).timers = [] ∧
    (animateBoxRun 4 "Animate Me!" [(0, bounce), (1000, spin)]).st.textContent =
      "Animate Me!" := by
  decide
